import Mathlib

/-!
Verification of the appaloosa flare-finding pipeline (src/appaloosa/appaloosa.py).

The Python source is shallowly embedded: numpy arrays become lists of
rationals (or of booleans / naturals where the source holds 0-1 indicator or
integer data), and the floating-point arithmetic of the source is modelled by
exact rational arithmetic.  Square roots are avoided in the executable
definitions by carrying the noise scale sigma of FINDflare in exact form:
sigma is either the square root of a single rational variance or the mean of
the square roots of the two middle sorted rolling variances (the nanmedian of
the rolling standard deviations), so the embedding carries that pair of
variances and decides the source's test abs(x)/sigma > N by clearing the two
square roots with two squarings, which is exact for the nonnegative
thresholds the source uses and also agrees with the IEEE behaviour of the
source when sigma = 0 (where the source produces inf > N, i.e. true, exactly
for x different from 0) and when sigma is NaN because there is no data
(every comparison false, nothing flagged).
Fallible numpy operations (indexing out of bounds, np.max of an empty array)
are embedded in an Except monad.  External numeric collaborators (np.polyfit,
scipy stats.ks_2samp, scipy curve_fit) are abstracted as oracle parameters:
the claims verified about FlareStats concern its control flow, sentinels and
totality, which do not depend on the values those collaborators return.
-/

/-! ## Rational-arithmetic helpers (numpy counterparts) -/

/-- Insert a rational into a sorted list, keeping it sorted. -/
def insertQ (x : ℚ) : List ℚ → List ℚ
  | [] => [x]
  | y :: r => if x ≤ y then x :: y :: r else y :: insertQ x r

/-- Insertion sort of a list of rationals (ascending). -/
def sortQ (l : List ℚ) : List ℚ := l.foldr insertQ []

/-- Embedding of np.nanmedian on finite data: the middle element of the sorted
list for odd length, the average of the two middle elements for even length.
On an empty list the source would produce NaN; the embedding returns 0 (the
pipeline never takes the median of an empty array on the paths verified
here). -/
def nanmedian (l : List ℚ) : ℚ :=
  let s := sortQ l
  let n := s.length
  if n = 0 then 0
  else if n % 2 = 1 then s.getD (n / 2) 0
  else (s.getD (n / 2 - 1) 0 + s.getD (n / 2) 0) / 2

/-- Arithmetic mean (np.mean on finite data); 0 on the empty list where numpy
would produce NaN. -/
def meanQ (l : List ℚ) : ℚ := l.sum / l.length

/-- Population variance, i.e. the square of np.nanstd (ddof = 0) on finite
data.  FINDflare uses np.nanstd(flux) as its default noise scale sigma; this
is sigma squared. -/
def variancePop (l : List ℚ) : ℚ := ((l.map (fun x => (x - meanQ l) ^ 2)).sum) / l.length

/-- Sample variance (ddof = 1), the square of the pandas rolling .std()
window statistic. -/
def varianceSample (l : List ℚ) : ℚ :=
  ((l.map (fun x => (x - meanQ l) ^ 2)).sum) / ((l.length : ℚ) - 1)

/-- The complete centred rolling windows of odd width w used by
pd.Series(flux).rolling(std_window, center=True).std(): position i has the
window of indices i - w/2 .. i + w/2, and positions whose window is
incomplete give NaN, which np.nanmedian then skips; those positions are
dropped here.  The sample variances of the complete windows are returned. -/
def rollingVars (w : ℕ) (l : List ℚ) : List ℚ :=
  (List.range l.length).filterMap (fun i =>
    if w / 2 ≤ i ∧ i + w / 2 < l.length then
      some (varianceSample ((l.drop (i - w / 2)).take w))
    else none)

/-- The noise scale sig_i of FINDflare (appaloosa.py lines 473-478),
represented exactly as the pair (va, vb) of variances with
sigma = (sqrt va + sqrt vb) / 2.  For avg_std = false, sigma is
np.nanstd(flux), so va = vb = the population variance of the flux (NaN, the
none value, when the flux is empty).  For avg_std = true, sigma is the
nanmedian of the rolling standard deviations: the standard deviations are
the square roots of the rolling sample variances, and the square root is
monotone, so sorting the standard deviations sorts the variances, and the
median is the mean of the square roots of the two middle sorted variances
(the same element twice when the number of complete windows is odd) -- see
the first part of the C2 theorem for the proof of this characterization.
When no window is complete the source's sigma is NaN: that's the none
value, under which every comparison is false and nothing is flagged. -/
def FINDflareSigPair (avgStd : Bool) (w : ℕ) (flux : List ℚ) : Option (ℚ × ℚ) :=
  if avgStd then
    if (sortQ (rollingVars w flux)).isEmpty then none
    else some ((sortQ (rollingVars w flux)).getD
        (((sortQ (rollingVars w flux)).length - 1) / 2) 0,
      (sortQ (rollingVars w flux)).getD ((sortQ (rollingVars w flux)).length / 2) 0)
  else if flux.isEmpty then none
  else some (variancePop flux, variancePop flux)

/-- Decision of the source's division test abs(y) / sigma > N for
sigma = (sqrt va + sqrt vb) / 2 with va, vb >= 0, by clearing the square
roots: for N > 0, squaring both sides and then isolating and squaring the
remaining root gives the rational conditions A > 0 and
A^2 > 4 N^4 va vb with A = 4 y^2 - N^2 (va + vb); for N <= 0 the test
abs(y) > N sigma holds unless both sides are zero.  At sigma = 0 this
reproduces the IEEE behaviour of the source: abs(y)/0 is inf (test true)
for y different from 0 and NaN (test false) for y = 0. -/
def ratioCut (N y va vb : ℚ) : Bool :=
  if N ≤ 0 then
    decide (0 < |y|) || (decide (N < 0) && (decide (0 < va) || decide (0 < vb)))
  else
    decide (0 < 4 * y ^ 2 - N ^ 2 * (va + vb)) &&
      decide (4 * N ^ 4 * (va * vb) < (4 * y ^ 2 - N ^ 2 * (va + vb)) ^ 2)

/-- Per-sample detection test of FINDflare (appaloosa.py lines 482-493):
with ca = x - med the source requires ca > 0, abs(ca)/sigma > N1 and
abs(ca - e)/sigma > N2; sigma is carried as its pair of variances, and a
NaN sigma (no data) makes every comparison false. -/
def passCuts (med : ℚ) (sp : Option (ℚ × ℚ)) (N1 N2 x e : ℚ) : Bool :=
  match sp with
  | none => false
  | some p => decide (0 < x - med) && ratioCut N1 (x - med) p.1 p.2 &&
      ratioCut N2 (x - med - e) p.1 p.2

/-- The 0-1 candidate indicator cindx of FINDflare (appaloosa.py lines
493-496): sample i is flagged when it passes all three cuts. -/
def FINDflareFlags (flux error : List ℚ) (N1 N2 : ℚ) (avgStd : Bool) (w : ℕ) : List Bool :=
  (List.range flux.length).map (fun i =>
    passCuts (nanmedian flux) (FINDflareSigPair avgStd w flux) N1 N2
      (flux.getD i 0) (error.getD i 0))

/-- np.max on a nonempty list (the callers guard emptiness). -/
def maxD : List ℚ → ℚ
  | [] => 0
  | x :: r => r.foldl max x

/-- np.min on a nonempty list (the callers guard emptiness). -/
def minD : List ℚ → ℚ
  | [] => 0
  | x :: r => r.foldl min x

/-! ## Run-length scan of FINDflare -/

/-- Run lengths of a boolean list: position i holds the number of consecutive
true entries starting at i (counting to the end of the list). -/
def runList : List Bool → List ℕ
  | [] => []
  | b :: r => (if b then (runList r).headD 0 + 1 else 0) :: runList r

/-- A boolean list with its first and last entries forced to false. -/
def clearEnds (c : List Bool) : List Bool := (c.set 0 false).set (c.length - 1) false

/-- Interior flagged positions: position i of c is an interior flag when
1 <= i, i + 1 < length and c is true at i.  These are exactly the positions
the ConM scan of FINDflare can count (see FINDflareConM). -/
def interiorFlag (c : List Bool) (i : ℕ) : Bool :=
  decide (1 ≤ i) && decide (i + 1 < c.length) && c.getD i false

/-- The cumulative run counter ConM of FINDflare (appaloosa.py lines
500-503).  The source initialises ConM to zeros and runs, for k in
range(2, n), the backward update ConM[-k] = cindx[-k] * (ConM[-(k-1)] +
cindx[-k]); so ConM[0] and ConM[n-1] are left at zero and every interior
position i in 1 .. n-2 receives ConM[i+1] + 1 if flagged and 0 otherwise.
That is precisely the run-length list of the flag list with both ends
cleared; the lemma FINDflareConM_getD below re-states the source's update
rule index by index. -/
def FINDflareConM (c : List Bool) : List ℕ := runList (clearEnds c)

/-- Flare start indices of FINDflare (appaloosa.py lines 507-508):
istart_i = np.where((ConM[1:] >= N3) & (ConM[0:-1] - ConM[1:] < 0))[0] + 1. -/
def FINDflareStarts (c : List Bool) (N3 : ℕ) : List ℕ :=
  ((List.range (c.length - 1)).filter (fun i =>
    decide (N3 ≤ (FINDflareConM c).getD (i + 1) 0) &&
      decide ((FINDflareConM c).getD i 0 < (FINDflareConM c).getD (i + 1) 0))).map (· + 1)

/-- Flare stop indices of FINDflare (appaloosa.py line 511):
istop_i = istart_i + (ConM[istart_i] - 1). -/
def FINDflareStops (c : List Bool) (N3 : ℕ) : List ℕ :=
  (FINDflareStarts c N3).map (fun s => s + (FINDflareConM c).getD s 0 - 1)

/-- The (start, stop) pairs returned by FINDflare for a given flag list. -/
def FINDflarePairs (c : List Bool) (N3 : ℕ) : List (ℕ × ℕ) :=
  (FINDflareStarts c N3).zip (FINDflareStops c N3)

/-- FINDflare (appaloosa.py lines 423-517) with returnbinary = False: computes
the candidate flags from the three per-sample cuts and then the (istart,
istop) lists from the ConM scan. -/
def FINDflare (flux error : List ℚ) (N1 N2 : ℚ) (N3 : ℕ) (avgStd : Bool) (w : ℕ) :
    List ℕ × List ℕ :=
  (FINDflareStarts (FINDflareFlags flux error N1 N2 avgStd w) N3,
   FINDflareStops (FINDflareFlags flux error N1 N2 avgStd w) N3)

/-- FINDflare with returnbinary = True (appaloosa.py lines 519-522): the 0-1
array with ones exactly on the index ranges istart[k] .. istop[k]. -/
def FINDflareBinary (flux error : List ℚ) (N1 N2 : ℚ) (N3 : ℕ) (avgStd : Bool) (w : ℕ) :
    List Bool :=
  (List.range flux.length).map (fun i =>
    (FINDflarePairs (FINDflareFlags flux error N1 N2 avgStd w) N3).any
      (fun p => decide (p.1 ≤ i) && decide (i ≤ p.2)))

/-! ## Specification-side description of the detected runs (for claim C1) -/

/-- Specification of an event run, following the amended wording of the spec:
a maximal run of consecutive flagged samples lying inside the interior
indices 1 .. n-2 (the scan of FINDflare never counts position 0 or position
n-1), of length at least N3.  Maximality is relative to that interior: the
run extends left until index 1 or an unflagged sample, and right until index
n-2 or an unflagged sample. -/
def isEventRun (c : List Bool) (N3 s e : ℕ) : Prop :=
  1 ≤ s ∧ s ≤ e ∧ e + 1 < c.length ∧
    (∀ j, s ≤ j → j ≤ e → c.getD j false = true) ∧
    (s = 1 ∨ c.getD (s - 1) false = false) ∧
    (e = c.length - 2 ∨ c.getD (e + 1) false = false) ∧
    N3 ≤ e + 1 - s

instance isEventRunDecidable (c : List Bool) (N3 s e : ℕ) : Decidable (isEventRun c N3 s e) := by
  unfold isEventRun
  exact inferInstance

/-- The flag sequence of the concrete run-length scenario of the spec:
0,1,1,1,0,1,1,0,0,1,1,1,1. -/
def specFlagSeq : List Bool :=
  [false, true, true, true, false, true, true, false, false, true, true, true, true]

/-! ## FlagCuts and MultiFind -/

/-- FlagCuts (appaloosa.py lines 525-551) with returngood = False: the per
sample sum of the bitwise AND of the quality flags with each of the
disallowed bits 16, 128 and 2048; a sample is good exactly when the sum is
below 1. -/
def FlagCutsBad (flags : List ℕ) : List ℕ :=
  flags.map (fun f => f &&& 16 + (f &&& 128) + (f &&& 2048))

/-- np.delete on a 1-d integer array: removes the entries at the listed
positions.  Positions beyond the array are ignored here (numpy would raise;
the pipeline only passes positions produced by np.where on the same
array). -/
def npDeleteNat (l : List ℕ) (pos : List ℕ) : List ℕ :=
  ((l.enum).filter (fun p => decide (p.1 ∉ pos))).map (fun p => p.2)

/-- The candidate points of MultiFind before the gap-window deletions
(appaloosa.py line 819): indices flagged by FINDflare in binary mode with
N1 = 3, N2 = 1, N3 = 3, avg_std = True, window 7 whose quality sum is below
1. -/
def MultiFindCand0 (fluxDiff error : List ℚ) (flags : List ℕ) : List ℕ :=
  (List.range fluxDiff.length).filter
    (fun i => decide ((FlagCutsBad flags).getD i 0 < 1) &&
      (FINDflareBinary fluxDiff error 3 1 3 true 7).getD i false)

/-- Candidate points of MultiFind (appaloosa.py lines 813-824): the filtered
flagged indices, with positions whose time lies within gapwindow of the last
or of the first time stamp deleted (both position lists are computed against
the array before the deletions, as in the source). -/
def MultiFindCand (time fluxDiff error : List ℚ) (flags : List ℕ) (gapwindow : ℚ) :
    List ℕ :=
  npDeleteNat
    (npDeleteNat (MultiFindCand0 fluxDiff error flags)
      ((List.range (MultiFindCand0 fluxDiff error flags).length).filter
        (fun j => decide (|time.getD ((MultiFindCand0 fluxDiff error flags).getD j 0) 0
          - time.getD (time.length - 1) 0| < gapwindow))))
    ((List.range (MultiFindCand0 fluxDiff error flags).length).filter
      (fun j => decide (|time.getD ((MultiFindCand0 fluxDiff error flags).getD j 0) 0
        - time.getD 0 0| < gapwindow)))

/-- The break positions of the event merging (appaloosa.py lines 832-833):
positions j where the gap to the next candidate exceeds minsep. -/
def mergeBreaks (cand : List ℕ) (minsep : ℕ) : List ℕ :=
  (List.range (cand.length - 1)).filter
    (fun j => decide (cand.getD j 0 + minsep < cand.getD (j + 1) 0))

/-- Event merging of MultiFind (appaloosa.py lines 827-838): when the
candidate list is empty both outputs are empty; otherwise starts are the
candidates after a gap larger than minsep (plus the first), stops are the
candidates before such a gap (plus the last), and any event whose start and
stop coincide has its stop moved one sample right. -/
def MergeCandidates (cand : List ℕ) (minsep : ℕ) : List ℕ × List ℕ :=
  if cand.isEmpty then ([], [])
  else
    (((0 : ℕ) :: (mergeBreaks cand minsep).map (· + 1)).map (fun p => cand.getD p 0),
     List.zipWith (fun s e => if s = e then e + 1 else e)
       (((0 : ℕ) :: (mergeBreaks cand minsep).map (· + 1)).map (fun p => cand.getD p 0))
       ((mergeBreaks cand minsep ++ [cand.length - 1]).map (fun p => cand.getD p 0)))

/-- The (istart, istop) event lists of MultiFind (appaloosa.py lines
813-838), taking the detrended residual as input (the detrending itself,
lines 763-810, is upstream of every claim about this stage). -/
def MultiFindEvents (time fluxDiff error : List ℚ) (flags : List ℕ) (gapwindow : ℚ)
    (minsep : ℕ) : List ℕ × List ℕ :=
  MergeCandidates (MultiFindCand time fluxDiff error flags gapwindow) minsep

/-! ## Completeness thresholds (FakeFlares / RunLC) -/

/-- scipy.signal.wiener with a window of 3 points: local mean and local
variance over zero-padded 3-windows, noise = the mean of the local variances,
and output lMean + (1 - noise/lVar) * (x - lMean), replaced by lMean wherever
lVar < noise.  Used to smooth the recovered-fraction curve (appaloosa.py
lines 989 and 1140). -/
def wiener3 (l : List ℚ) : List ℚ :=
  let lMean : ℕ → ℚ := fun i =>
    ((if 1 ≤ i then l.getD (i - 1) 0 else 0) + l.getD i 0 + l.getD (i + 1) 0) / 3
  let lVar : ℕ → ℚ := fun i =>
    ((if 1 ≤ i then (l.getD (i - 1) 0) ^ 2 else 0) + (l.getD i 0) ^ 2
        + (l.getD (i + 1) 0) ^ 2) / 3 - (lMean i) ^ 2
  let noise := ((List.range l.length).map lVar).sum / l.length
  (List.range l.length).map (fun i =>
    if lVar i < noise then lMean i
    else lMean i + (1 - noise / lVar i) * (l.getD i 0 - lMean i))

/-- The finite bins of the completeness curve: the bin centers paired with
the recovered fractions, restricted to bins whose fraction is finite (the
mask rl = np.isfinite(frac_rec); an empty bin has fraction NaN, modelled as
none). -/
def finiteBins (centers : List ℚ) (frac : List (Option ℚ)) : List (ℚ × ℚ) :=
  ((centers.zip frac).filter (fun p => p.2.isSome)).map (fun p => (p.1, p.2.getD 0))

/-- The completeness threshold computation of RunLC (appaloosa.py lines
1139-1153) and FakeFlares (lines 986-1000): smooth the finite recovered
fractions with a 3-point wiener filter, select the bins where the smoothed
fraction reaches the threshold, and return the minimum (np.min) of their
centers, or the sentinel -99 when no bin reaches the threshold. -/
def edThreshold (centers : List ℚ) (frac : List (Option ℚ)) (t : ℚ) : ℚ :=
  if ((((finiteBins centers frac).map (fun p => p.1)).zip
      (wiener3 ((finiteBins centers frac).map (fun p => p.2)))).filter
      (fun q => decide (t ≤ q.2))).isEmpty
  then -99
  else minD (((((finiteBins centers frac).map (fun p => p.1)).zip
      (wiener3 ((finiteBins centers frac).map (fun p => p.2)))).filter
      (fun q => decide (t ≤ q.2))).map (fun q => q.1))

/-- Specification-side description of the same quantity, following the
spec's words: the bin center at which the smoothed recovered fraction FIRST
reaches the threshold, or -99 when it never does. -/
def specFirstReach (centers : List ℚ) (frac : List (Option ℚ)) (t : ℚ) : ℚ :=
  (((((finiteBins centers frac).map (fun p => p.1)).zip
      (wiener3 ((finiteBins centers frac).map (fun p => p.2)))).find?
      (fun q => decide (t ≤ q.2))).map (fun q => q.1)).getD (-99)

/-- The ed68/ed90 values RunLC attaches to the events of one segment
(appaloosa.py lines 1123-1173): when dofake is true they come from the
completeness curve with thresholds 0.68 and 0.90; when dofake is false both
are the distinct sentinel -199; either way one copy per detected event is
appended (np.zeros(len(istart_i)) + ed68_i). -/
def RunLCsegmentEDs (dofake : Bool) (centers : List ℚ) (frac : List (Option ℚ))
    (nEvents : ℕ) : List ℚ × List ℚ :=
  (List.replicate nEvents (if dofake then edThreshold centers frac (68/100) else -199),
   List.replicate nEvents (if dofake then edThreshold centers frac (90/100) else -199))

/-! ## FlareStats -/

/-- Scalar indexing of a numpy array by a python integer: negative indices
address from the end; indices outside -n .. n-1 raise. -/
def pyGet (l : List ℚ) (i : ℤ) : Except Unit ℚ :=
  if 0 ≤ i ∧ i < (l.length : ℤ) then Except.ok (l.getD i.toNat 0)
  else if i < 0 ∧ 0 ≤ i + (l.length : ℤ) then Except.ok (l.getD (i + (l.length : ℤ)).toNat 0)
  else Except.error ()

/-- Python slice l[i:j]: bounds are clamped after resolving negative values
from the end; never raises. -/
def pySlice (l : List ℚ) (i j : ℤ) : List ℚ :=
  let n : ℤ := l.length
  let lo := if i < 0 then max (n + i) 0 else min i n
  let hi := if j < 0 then max (n + j) 0 else min j n
  (l.drop lo.toNat).take (hi - lo).toNat

/-- numpy fancy indexing l[idx]: every index resolved like scalar indexing;
raises when any index is out of range. -/
def pyFancy (l : List ℚ) (idx : List ℤ) : Except Unit (List ℚ) :=
  idx.mapM (pyGet l)

/-- np.polyval: Horner evaluation, highest coefficient first. -/
def polyval (coeffs : List ℚ) (x : ℚ) : ℚ := coeffs.foldl (fun acc c => acc * x + c) 0

/-- np.where((arr >= lo) & (arr <= hi))[0] on a 1-d array. -/
def npWhereInRange (l : List ℚ) (lo hi : ℚ) : List ℕ :=
  (List.range l.length).filter (fun i => decide (lo ≤ l.getD i 0) && decide (l.getD i 0 ≤ hi))

/-- Continuum-region selection of FlareStats (appaloosa.py lines 629-633):
the two flanking windows are concatenated; when no sample falls in either,
the first and last flare samples become the anchors and the polynomial
degree drops to 1, otherwise the degree parameter (default 2) is kept. -/
def contSetup (c1 c2 : List ℕ) (a b : ℤ) (cp : ℕ) : List ℤ × ℕ :=
  if c1 ++ c2 = [] then ([a, b], 1)
  else ((c1 ++ c2).map (fun i : ℕ => (i : ℤ)), cp)

/-- Index adjustments of FlareStats (appaloosa.py lines 592-605): negative
istart/istop default to the data ends; a zero-width range is widened by one
sample on each side; a range of fewer than 3 samples is extended by one. -/
def adjustFlareRange (istart istop : ℤ) (n : ℕ) : ℤ × ℤ :=
  let i1 := if istart < 0 then 0 else istart
  let j1 := if istop < 0 then (n : ℤ) - 1 else istop
  let i2 := if i1 = j1 then i1 - 1 else i1
  let j2 := if i1 = j1 then j1 + 1 else j1
  let j3 := if j2 - i2 < 2 then j2 + 1 else j2
  (i2, j3)

/-- np.trapz with explicit sample points: sum of (x2 - x1) * (y2 + y1) / 2
over consecutive samples. -/
def trapzQ : List ℚ → List ℚ → ℚ
  | x1 :: x2 :: xr, y1 :: y2 :: yr => (x2 - x1) * (y2 + y1) / 2 + trapzQ (x2 :: xr) (y2 :: yr)
  | _, _ => 0

/-- EquivDur (appaloosa.py lines 554-567): the trapezoidal integral of the
relative flux over the time converted from days to seconds. -/
def EquivDur (time flux : List ℚ) : ℚ := trapzQ (time.map (fun t => t * (60 * 60 * 24))) flux

/-- chisq (appaloosa.py lines 37-42): sum of ((data - model)/error)^2 over
the samples, divided by the sample count. -/
def chisqNorm (data error model : List ℚ) : ℚ :=
  ((List.zipWith (fun d m => d - m) data model).zipWith (fun dm e => (dm / e) ^ 2) error).sum
    / data.length

/-- The three ways the curve_fit call of FlareStats can end (appaloosa.py
lines 657-666): a normal return, a ValueError (bad data or parameters), or a
RuntimeError (failure to converge). -/
inductive FitOutcome where
  | valueErr : FitOutcome
  | runtimeErr : FitOutcome
  | fitted : ℚ → ℚ → ℚ → FitOutcome

/-- The external numeric collaborators of FlareStats, abstracted: np.polyfit
(coefficients of a least-squares polynomial of the requested degree),
scipy.stats.ks_2samp (statistic and p-value), and scipy curve_fit of the
aflare1 template against the normalized flare flux, seeded with (tpeak,
fwhm, ampl). -/
structure Numerics where
  polyfit : List ℚ → List ℚ → ℕ → List ℚ
  ks2samp : List ℚ → List ℚ → ℚ × ℚ
  curveFit : List ℚ → List ℚ → ℚ × ℚ × ℚ → FitOutcome

/-- The fit parameter triple recorded by FlareStats for each outcome of the
curve_fit call (appaloosa.py lines 657-666): NaN, NaN, NaN (here none) on
ValueError, the sentinel -99, -99, -99 on RuntimeError, the fitted values
otherwise. -/
def fitSentinel : FitOutcome → Option ℚ × Option ℚ × Option ℚ
  | FitOutcome.valueErr => (none, none, none)
  | FitOutcome.runtimeErr => (some (-99), some (-99), some (-99))
  | FitOutcome.fitted a b c => (some a, some b, some c)

/-- Everything FlareStats computes before and besides the curve_fit call:
the twelve fit-independent entries of the output tuple, plus the arguments
(flare times, normalized flux, seed) handed to curve_fit. -/
structure FlarePre where
  tstart : ℚ
  tstop : ℚ
  tpeak : ℚ
  ampl : ℚ
  fwhm : ℚ
  dur0 : ℚ
  fchisq : ℚ
  ksD : ℚ
  ksP : ℚ
  ksDc : ℚ
  ksPc : ℚ
  ed : ℚ
  flaretime : List ℚ
  ynorm : List ℚ

/-- The fixed-schema output tuple of FlareStats (appaloosa.py lines
685-691): t_start, t_stop, t_peak, amplitude, FWHM, duration, the three
aflare1 fit parameters, flare_chisq, the two KS statistics against the
model, the two against the continuum, and the equivalent duration.  The fit
parameters are optional rationals so that the NaN sentinel stays
distinguishable from the -99 sentinel. -/
structure FlareParams where
  tstart : ℚ
  tstop : ℚ
  tpeak : ℚ
  ampl : ℚ
  fwhm : ℚ
  dur0 : ℚ
  fitTpeak : Option ℚ
  fitFwhm : Option ℚ
  fitAmpl : Option ℚ
  fchisq : ℚ
  ksD : ℚ
  ksP : ℚ
  ksDc : ℚ
  ksPc : ℚ
  ed : ℚ

/-- Assembly of the output tuple from the fit-independent part and the fit
outcome. -/
def buildFlareParams (p : FlarePre) (o : FitOutcome) : FlareParams :=
  ⟨p.tstart, p.tstop, p.tpeak, p.ampl, p.fwhm, p.dur0,
    (fitSentinel o).1, (fitSentinel o).2.1, (fitSentinel o).2.2,
    p.fchisq, p.ksD, p.ksP, p.ksDc, p.ksPc, p.ed⟩

/-- The three fit fields of the output tuple. -/
def fitFields (p : FlareParams) : Option ℚ × Option ℚ × Option ℚ :=
  (p.fitTpeak, p.fitFwhm, p.fitAmpl)

/-- Whether an Except computation succeeded. -/
def isOkE {α : Type} : Except Unit α → Bool
  | Except.ok _ => true
  | Except.error _ => false

/-- The fit-independent computation of FlareStats (appaloosa.py lines
570-696).  Index adjustments, then tstart = time[istart] and tstop =
time[istop] (which raise when the adjusted index leaves the array, embedded
by the error branches), the flanking continuum windows, the flare-window
slices, the continuum setup with its single-point fallback, the polynomial
continuum line, amplitude and peak (np.max and np.argmax raise on an empty
flare window, embedded by the empty match branch), the FWHM estimate with
its quarter-duration fallback, the normalized chi square, the two KS
statistics and the equivalent duration. -/
def FlareStatsPre (pf : List ℚ → List ℚ → ℕ → List ℚ) (ks : List ℚ → List ℚ → ℚ × ℚ)
    (time flux error model : List ℚ) (istart₀ istop₀ : ℤ) (cpoly₀ : ℕ) :
    Except Unit FlarePre :=
  let ab := adjustFlareRange istart₀ istop₀ flux.length
  match pyGet time ab.1, pyGet time ab.2 with
  | Except.ok tstart, Except.ok tstop =>
    let dur0 := tstop - tstart
    let c1 := npWhereInRange time (tstart - dur0) (tstart - dur0 / 2)
    let c2 := npWhereInRange time (tstop + dur0 / 2) (tstop + dur0)
    let flareflux := pySlice flux ab.1 (ab.2 + 1)
    let flaretime := pySlice time ab.1 (ab.2 + 1)
    let modelflux := pySlice model ab.1 (ab.2 + 1)
    let flareerror := pySlice error ab.1 (ab.2 + 1)
    let ic := contSetup c1 c2 ab.1 ab.2 cpoly₀
    match pyFancy flux ic.1, pyFancy time ic.1 with
    | Except.ok contflux, Except.ok conttime =>
      let contfit := pf conttime contflux ic.2
      let contline := flaretime.map (polyval contfit)
      let medflux := nanmedian model
      match List.zipWith (fun x y => x - y) flareflux contline with
      | [] => Except.error ()
      | d0 :: dr =>
        let amplRaw := dr.foldl max d0
        let ampl := amplRaw / medflux
        let pk := (d0 :: dr).findIdx (fun y => decide (y = amplRaw))
        let tpeak := flaretime.getD pk 0
        let p05 := (List.range (d0 :: dr).length).filter
          (fun j => decide ((d0 :: dr).getD j 0 ≤ ampl * (1/2)))
        let fwhm := if p05.isEmpty then dur0 * (1/4)
          else maxD (p05.map (fun j => flaretime.getD j 0))
            - minD (p05.map (fun j => flaretime.getD j 0))
        let fchisq := chisqNorm flareflux flareerror modelflux
        let ks1 := ks flareflux modelflux
        let ks2v := ks (d0 :: dr)
          (List.zipWith (fun x y => x - y) contflux (conttime.map (polyval contfit)))
        let ed := EquivDur flaretime ((d0 :: dr).map (fun x => x / medflux))
        Except.ok ⟨tstart, tstop, tpeak, ampl, fwhm, dur0, fchisq,
          ks1.1, ks1.2, ks2v.1, ks2v.2, ed, flaretime, (d0 :: dr).map (fun x => x / medflux)⟩
    | _, _ => Except.error ()
  | _, _ => Except.error ()

/-- FlareStats (appaloosa.py lines 570-696): the fit-independent part
followed by the curve_fit call whose ValueError / RuntimeError / success
outcome fills the three template-fit fields of the output tuple. -/
def FlareStats (nm : Numerics) (time flux error model : List ℚ) (istart₀ istop₀ : ℤ)
    (cpoly₀ : ℕ) : Except Unit FlareParams :=
  (FlareStatsPre nm.polyfit nm.ks2samp time flux error model istart₀ istop₀ cpoly₀).map
    (fun p => buildFlareParams p (nm.curveFit p.flaretime p.ynorm (p.tpeak, p.fwhm, p.ampl)))

/-- A trivial instantiation of the numeric collaborators, used for concrete
evaluations whose claims do not depend on the returned values. -/
def trivialNumerics : Numerics :=
  ⟨fun _ _ _ => [], fun _ _ => (0, 0), fun _ _ _ => FitOutcome.fitted 0 0 0⟩

/-! ## Concrete inputs used by counterexamples and witnesses -/

/-- A flux with a single 3-sample brightening, used to exercise FINDflare in
default-sigma mode: median 0, population variance 21. -/
def flux10 : List ℚ := [0, 10, 10, 10, 0, 0, 0, 0, 0, 0]

/-- Zero errors for flux10. -/
def err10 : List ℚ := [0, 0, 0, 0, 0, 0, 0, 0, 0, 0]

/-- A flux whose median is 100: the sample at index 0 satisfies the spec's
raw-residual criteria but is not flagged by the code, which subtracts the
median first.  Population variance 9, so sigma = 3. -/
def fluxC2 : List ℚ := [100, 100, 100, 100, 100, 100, 100, 100, 100, 110]

/-- Zero errors for fluxC2. -/
def errC2 : List ℚ := [0, 0, 0, 0, 0, 0, 0, 0, 0, 0]

/-- Time stamps 0 .. 28 (days) for the MultiFind scenario. -/
def mfTime : List ℚ := (List.range 29).map (fun n => (n : ℚ))

/-- Detrended flux for the MultiFind scenario: two runs of ones, at indices
4-6 and 8-10, over 29 samples.  With window 7 the rolling variance has 23
complete windows of which 12 are zero, so the avg_std noise scale is 0 and
exactly the six one-valued samples are flagged. -/
def mfFlux : List ℚ :=
  [0, 0, 0, 0, 1, 1, 1, 0, 1, 1, 1, 0, 0, 0, 0, 0, 0, 0, 0, 0, 0, 0, 0, 0, 0, 0, 0, 0, 0]

/-- Zero errors for the MultiFind scenario. -/
def mfErr : List ℚ := List.replicate 29 0

/-- Quality flags for the MultiFind scenario: the disallowed bit 16 is set at
indices 5 and 6, inside the first flagged run. -/
def mfFlags : List ℕ :=
  [0, 0, 0, 0, 0, 16, 16, 0, 0, 0, 0, 0, 0, 0, 0, 0, 0, 0, 0, 0, 0, 0, 0, 0, 0, 0, 0, 0, 0]

/-- Bin centers for the completeness-threshold example. -/
def edCenters5 : List ℚ := [1, 2, 3, 4, 5]

/-- Recovered fractions for the completeness-threshold example (all bins
finite). -/
def edFrac5 : List (Option ℚ) := [some 0, some 0, some 1, some 1, some 1]

/-- Six equally spaced samples, used as every input array of the FlareStats
failure scenario. -/
def fsList6 : List ℚ := [0, 1, 2, 3, 4, 5]

/-- Time stamps for the continuum-fallback scenario: with the flare on
indices 1 .. 3 (times 10 .. 12, duration 2), the left window covers times
8 .. 9 and the right window times 13 .. 14, and no sample falls in
either. -/
def fsTimeGap : List ℚ := [0, 10, 11, 12, 29/2, 23]

/-- A 24-sample flux with a 3-sample spike of height 100 at indices 1 .. 3:
median 0, population variance 4375/4, so the spike passes the default cuts
(100^2 > 9 * 4375/4) and FINDflare in default-sigma mode reports the single
run 1 .. 3. -/
def flux24 : List ℚ :=
  [0, 100, 100, 100, 0, 0, 0, 0, 0, 0, 0, 0, 0, 0, 0, 0, 0, 0, 0, 0, 0, 0, 0, 0]

/-- Zero errors for flux24. -/
def err24 : List ℚ := List.replicate 24 0

/-! ## Theorems: run-length scan -/

theorem headD_eq_getD_zero (l : List ℕ) : l.headD 0 = l.getD 0 0 := by
  cases l <;> rfl

theorem runList_length (l : List Bool) : (runList l).length = l.length := by
  induction l with
  | nil => rfl
  | cons b r ih => simp [runList, ih]

theorem runList_getD (l : List Bool) (i : ℕ) :
    (runList l).getD i 0 = if l.getD i false then (runList l).getD (i + 1) 0 + 1 else 0 := by
  induction l generalizing i with
  | nil => simp [runList]
  | cons b r ih =>
    cases i with
    | zero =>
      simp only [runList, List.getD_cons_zero, List.getD_cons_succ]
      rw [headD_eq_getD_zero]
    | succ j =>
      simp only [runList, List.getD_cons_succ]
      exact ih j

theorem clearEnds_length (c : List Bool) : (clearEnds c).length = c.length := by
  simp [clearEnds]

theorem interiorFlag_eq_true_iff (c : List Bool) (i : ℕ) :
    interiorFlag c i = true ↔ 1 ≤ i ∧ i + 1 < c.length ∧ c.getD i false = true := by
  simp [interiorFlag, and_assoc]

theorem clearEnds_getD (c : List Bool) (i : ℕ) :
    (clearEnds c).getD i false = interiorFlag c i := by
  unfold clearEnds
  rcases Nat.lt_or_ge i c.length with hi | hi
  · have hi2 : i < ((c.set 0 false).set (c.length - 1) false).length := by simpa using hi
    rw [List.getD_eq_getElem _ _ hi2, List.getElem_set, List.getElem_set]
    by_cases h1 : c.length - 1 = i
    · have hnot : ¬ (i + 1 < c.length) := by omega
      simp [h1, interiorFlag, hnot]
    · rw [if_neg h1]
      by_cases h2 : (0 : ℕ) = i
      · have h0 : 0 = i := h2
        simp [← h0, interiorFlag]
      · rw [if_neg h2]
        have hin : 1 ≤ i := by omega
        have hin2 : i + 1 < c.length := by omega
        rw [← List.getD_eq_getElem c false hi]
        simp [interiorFlag, hin, hin2]
  · have h1 : ((c.set 0 false).set (c.length - 1) false).length ≤ i := by simpa using hi
    rw [List.getD_eq_default _ _ h1]
    have hnot : ¬ (i + 1 < c.length) := by omega
    simp [interiorFlag, hnot]

theorem FINDflareConM_getD (c : List Bool) (i : ℕ) :
    (FINDflareConM c).getD i 0 =
      if 1 ≤ i ∧ i + 1 < c.length ∧ c.getD i false = true
      then (FINDflareConM c).getD (i + 1) 0 + 1 else 0 := by
  rw [FINDflareConM, runList_getD, clearEnds_getD]
  by_cases h : 1 ≤ i ∧ i + 1 < c.length ∧ c.getD i false = true
  · rw [if_pos h, if_pos ((interiorFlag_eq_true_iff c i).mpr h)]
  · rw [if_neg h, if_neg (fun hh => h ((interiorFlag_eq_true_iff c i).mp hh))]

theorem runList_run (l : List Bool) :
    ∀ k i, (runList l).getD i 0 = k → ∀ j, i ≤ j → j < i + k → l.getD j false = true := by
  intro k
  induction k with
  | zero => intro i _ j h1 h2; omega
  | succ m ih =>
    intro i hk j h1 h2
    have hrec := runList_getD l i
    rw [hk] at hrec
    by_cases hb : l.getD i false = true
    · rw [if_pos hb] at hrec
      have hm : (runList l).getD (i + 1) 0 = m := by omega
      rcases Nat.eq_or_lt_of_le h1 with h | hlt
      · rw [← h]; exact hb
      · exact ih (i + 1) hm j (by omega) (by omega)
    · rw [if_neg hb] at hrec; omega

theorem runList_stop (l : List Bool) :
    ∀ k i, (runList l).getD i 0 = k → l.getD (i + k) false = false := by
  intro k
  induction k with
  | zero =>
    intro i hk
    have hrec := runList_getD l i
    rw [hk] at hrec
    by_cases hb : l.getD i false = true
    · rw [if_pos hb] at hrec; omega
    · simpa using (Bool.not_eq_true _).mp hb
  | succ m ih =>
    intro i hk
    have hrec := runList_getD l i
    rw [hk] at hrec
    by_cases hb : l.getD i false = true
    · rw [if_pos hb] at hrec
      have hm : (runList l).getD (i + 1) 0 = m := by omega
      have hstop := ih (i + 1) hm
      have heq : i + 1 + m = i + (m + 1) := by omega
      rw [heq] at hstop
      exact hstop
    · rw [if_neg hb] at hrec; omega

theorem runList_eq_of (l : List Bool) :
    ∀ k i, (∀ j, i ≤ j → j < i + k → l.getD j false = true) →
      l.getD (i + k) false = false → (runList l).getD i 0 = k := by
  intro k
  induction k with
  | zero =>
    intro i _ hstop
    have hb : l.getD i false = false := by simpa using hstop
    rw [runList_getD, hb]
    simp
  | succ m ih =>
    intro i hrun hstop
    have hb : l.getD i false = true := hrun i le_rfl (by omega)
    have hstop' : l.getD (i + 1 + m) false = false := by
      have heq : i + 1 + m = i + (m + 1) := by omega
      rw [heq]; exact hstop
    have hm : (runList l).getD (i + 1) 0 = m :=
      ih (i + 1) (fun j hj1 hj2 => hrun j (by omega) (by omega)) hstop'
    rw [runList_getD, if_pos hb, hm]

theorem zip_map_self {α β : Type} (f : α → β) (l : List α) :
    l.zip (l.map f) = l.map (fun a => (a, f a)) := by
  induction l with
  | nil => rfl
  | cons x r ih => simp [ih]

theorem mem_FINDflareStarts (c : List Bool) (N3 s : ℕ) :
    s ∈ FINDflareStarts c N3 ↔
      1 ≤ s ∧ s - 1 < c.length - 1 ∧ N3 ≤ (FINDflareConM c).getD s 0 ∧
        (FINDflareConM c).getD (s - 1) 0 < (FINDflareConM c).getD s 0 := by
  unfold FINDflareStarts
  simp only [List.mem_map, List.mem_filter, List.mem_range, Bool.and_eq_true, decide_eq_true_eq]
  constructor
  · rintro ⟨i, ⟨hi, h1, h2⟩, rfl⟩
    refine ⟨by omega, by omega, h1, ?_⟩
    rw [Nat.add_sub_cancel]
    exact h2
  · rintro ⟨h1, h2, h3, h4⟩
    refine ⟨s - 1, ⟨by omega, ?_, ?_⟩, by omega⟩
    · rw [show s - 1 + 1 = s by omega]; exact h3
    · rw [show s - 1 + 1 = s by omega]; exact h4

theorem mem_FINDflarePairs (c : List Bool) (N3 s e : ℕ) :
    (s, e) ∈ FINDflarePairs c N3 ↔
      s ∈ FINDflareStarts c N3 ∧ e = s + (FINDflareConM c).getD s 0 - 1 := by
  unfold FINDflarePairs FINDflareStops
  rw [zip_map_self]
  simp only [List.mem_map, Prod.mk.injEq]
  constructor
  · rintro ⟨a, ha, rfl, rfl⟩; exact ⟨ha, rfl⟩
  · rintro ⟨hs, rfl⟩; exact ⟨s, hs, rfl, rfl⟩

/-- C1 (amended): on every flag list, the (start, stop) pairs of the FINDflare
run scan are exactly the maximal runs of consecutive flagged samples within
the interior indices 1 .. n-2 whose length is at least N3, with stop =
start + run_length - 1.  The scan leaves positions 0 and n-1 unassigned, so
the first sample never starts a reported run and the last sample is never
counted; on the spec's concrete sequence 0,1,1,1,0,1,1,0,0,1,1,1,1 with
N3 = 3 the detected events are index ranges 1-3 and 9-11 (not 9-12). -/
theorem FINDflare_detects_interior_runs (c : List Bool) (N3 : ℕ) (hN3 : 1 ≤ N3) (s e : ℕ) :
    (s, e) ∈ FINDflarePairs c N3 ↔ isEventRun c N3 s e := by
  rw [mem_FINDflarePairs, mem_FINDflareStarts]
  constructor
  · rintro ⟨⟨h1, h2, h3, h4⟩, rfl⟩
    set L := (FINDflareConM c).getD s 0 with hL
    have hL1 : 1 ≤ L := by omega
    have hrun : ∀ j, s ≤ j → j < s + L → (clearEnds c).getD j false = true :=
      runList_run (clearEnds c) L s hL.symm
    have hstop : (clearEnds c).getD (s + L) false = false :=
      runList_stop (clearEnds c) L s hL.symm
    have hflag : ∀ j, s ≤ j → j < s + L →
        1 ≤ j ∧ j + 1 < c.length ∧ c.getD j false = true := by
      intro j hj1 hj2
      exact (interiorFlag_eq_true_iff c j).mp (by rw [← clearEnds_getD]; exact hrun j hj1 hj2)
    have hlast := hflag (s + L - 1) (by omega) (by omega)
    refine ⟨h1, by omega, by omega, ?_, ?_, ?_, by omega⟩
    · intro j hj1 hj2
      exact (hflag j hj1 (by omega)).2.2
    · by_cases hs1 : s = 1
      · exact Or.inl hs1
      · refine Or.inr ?_
        rcases Bool.eq_false_or_eq_true (c.getD (s - 1) false) with hbt | hbf
        · exfalso
          have hif : interiorFlag c (s - 1) = true := by
            rw [interiorFlag_eq_true_iff]
            refine ⟨by omega, by omega, hbt⟩
          have hrec := runList_getD (clearEnds c) (s - 1)
          rw [clearEnds_getD, hif] at hrec
          rw [if_pos rfl, show s - 1 + 1 = s by omega] at hrec
          have : (FINDflareConM c).getD (s - 1) 0 = L + 1 := hrec
          omega
        · exact hbf
    · have hstopflag : interiorFlag c (s + L) = false := by
        rw [← clearEnds_getD]; exact hstop
      by_cases hend : s + L - 1 = c.length - 2
      · exact Or.inl hend
      · refine Or.inr ?_
        rcases Bool.eq_false_or_eq_true (c.getD (s + L - 1 + 1) false) with hbt | hbf
        · exfalso
          have : interiorFlag c (s + L) = true := by
            rw [interiorFlag_eq_true_iff]
            refine ⟨by omega, by omega, by rw [show s + L = s + L - 1 + 1 by omega]; exact hbt⟩
          rw [this] at hstopflag
          exact absurd hstopflag (by simp)
        · exact hbf
  · rintro ⟨h1, h2, h3, h4, h5, h6, h7⟩
    have hrun' : ∀ j, s ≤ j → j < s + (e + 1 - s) → (clearEnds c).getD j false = true := by
      intro j hj1 hj2
      rw [clearEnds_getD]
      rw [interiorFlag_eq_true_iff]
      exact ⟨by omega, by omega, h4 j (by omega) (by omega)⟩
    have hstop' : (clearEnds c).getD (s + (e + 1 - s)) false = false := by
      rw [show s + (e + 1 - s) = e + 1 by omega, clearEnds_getD]
      have hnot : ¬ (1 ≤ e + 1 ∧ e + 1 + 1 < c.length ∧ c.getD (e + 1) false = true) := by
        rcases h6 with h6 | h6
        · intro hcon; omega
        · intro hcon; rw [h6] at hcon; exact Bool.false_ne_true hcon.2.2
      rcases Bool.eq_false_or_eq_true (interiorFlag c (e + 1)) with ht | hf
      · exact absurd ((interiorFlag_eq_true_iff c (e + 1)).mp ht) hnot
      · exact hf
    have hLval : (FINDflareConM c).getD s 0 = e + 1 - s :=
      runList_eq_of (clearEnds c) (e + 1 - s) s hrun' hstop'
    have hsm1 : (FINDflareConM c).getD (s - 1) 0 = 0 := by
      rw [FINDflareConM_getD]
      rw [if_neg]
      intro hcon
      rcases h5 with h5 | h5
      · omega
      · rw [h5] at hcon; exact Bool.false_ne_true hcon.2.2
    refine ⟨⟨h1, by omega, by rw [hLval]; exact h7, by rw [hsm1, hLval]; omega⟩, by rw [hLval]; omega⟩

/-- C1 counterexample: on the spec's concrete flag sequence with N3 = 3 the
code returns the ranges (1,3) and (9,11); the pair (9,12) that the claim
requires is not returned, because the backward scan never counts the last
sample of the array. -/
theorem C1_spec_scenario_fails :
    FINDflarePairs specFlagSeq 3 = [(1, 3), (9, 11)] ∧
      (9, 12) ∉ FINDflarePairs specFlagSeq 3 := by
  constructor
  · decide
  · decide

/-- C1 witness: the amended characterization applied to the concrete spec
sequence at the run 9 .. 11. -/
theorem C1_amended_witness : isEventRun specFlagSeq 3 9 11 :=
  (FINDflare_detects_interior_runs specFlagSeq 3 (by decide) 9 11).mp (by decide)

theorem FINDflareFlags_length (flux error : List ℚ) (N1 N2 : ℚ) (avgStd : Bool) (w : ℕ) :
    (FINDflareFlags flux error N1 N2 avgStd w).length = flux.length := by
  simp [FINDflareFlags]

/-- C10: for every input flux and error array with at least two samples,
every (start, stop) pair returned by FINDflare has start at least 1 and stop
at most n - 2: the backward cumulative-run scan leaves ConM[0] and ConM[n-1]
at zero, so no reported run starts at the first sample and the last sample is
never counted as part of a run. -/
theorem FINDflare_interior_bounds (flux error : List ℚ) (N1 N2 : ℚ) (N3 : ℕ)
    (avgStd : Bool) (w : ℕ) (hn : 2 ≤ flux.length) (s e : ℕ)
    (hmem : (s, e) ∈ ((FINDflare flux error N1 N2 N3 avgStd w).1.zip
      (FINDflare flux error N1 N2 N3 avgStd w).2)) :
    1 ≤ s ∧ e ≤ flux.length - 2 := by
  have hmem' : (s, e) ∈ FINDflarePairs (FINDflareFlags flux error N1 N2 avgStd w) N3 := hmem
  rw [mem_FINDflarePairs, mem_FINDflareStarts] at hmem'
  obtain ⟨⟨h1, h2, h3, h4⟩, rfl⟩ := hmem'
  refine ⟨h1, ?_⟩
  set c := FINDflareFlags flux error N1 N2 avgStd w with hc
  set L := (FINDflareConM c).getD s 0 with hL
  have hL1 : 1 ≤ L := by omega
  have hrun : ∀ j, s ≤ j → j < s + L → (clearEnds c).getD j false = true :=
    runList_run (clearEnds c) L s hL.symm
  have hj : (clearEnds c).getD (s + L - 1) false = true := hrun (s + L - 1) (by omega) (by omega)
  have hflag := (interiorFlag_eq_true_iff c (s + L - 1)).mp (by rw [← clearEnds_getD]; exact hj)
  have hclen : c.length = flux.length := FINDflareFlags_length flux error N1 N2 avgStd w
  omega

/-! ## Theorems: candidate ordering and separation -/

theorem FINDflarePairs_eq_map (c : List Bool) (N3 : ℕ) :
    FINDflarePairs c N3 = (FINDflareStarts c N3).map
      (fun s => (s, s + (FINDflareConM c).getD s 0 - 1)) := by
  unfold FINDflarePairs FINDflareStops
  exact zip_map_self _ _

theorem FINDflareStarts_sorted (c : List Bool) (N3 : ℕ) :
    (FINDflareStarts c N3).Pairwise (· < ·) := by
  unfold FINDflareStarts
  exact List.Pairwise.map _ (fun a b h => by omega)
    (List.Pairwise.filter _ (List.pairwise_lt_range _))

theorem FINDflarePairs_start_le_stop (c : List Bool) (N3 : ℕ) :
    ∀ p ∈ FINDflarePairs c N3, p.1 ≤ p.2 := by
  rintro ⟨s, e⟩ hp
  rw [mem_FINDflarePairs, mem_FINDflareStarts] at hp
  obtain ⟨⟨h1, h2, h3, h4⟩, rfl⟩ := hp
  simp only
  omega

theorem FINDflarePairs_disjoint (c : List Bool) (N3 : ℕ) :
    (FINDflarePairs c N3).Pairwise (fun p q => p.2 < q.1) := by
  rw [FINDflarePairs_eq_map, List.pairwise_map]
  refine List.Pairwise.imp_of_mem ?_ (FINDflareStarts_sorted c N3)
  intro a b ha hb hab
  simp only
  rw [mem_FINDflareStarts] at ha hb
  obtain ⟨ha1, ha2, ha3, ha4⟩ := ha
  obtain ⟨hb1, hb2, hb3, hb4⟩ := hb
  by_contra hcon
  push_neg at hcon
  have hL1 : 1 ≤ (FINDflareConM c).getD a 0 := by omega
  have hb0 : (clearEnds c).getD (b - 1) false = true :=
    runList_run (clearEnds c) ((FINDflareConM c).getD a 0) a rfl (b - 1)
      (by omega) (by omega)
  have hrec := runList_getD (clearEnds c) (b - 1)
  rw [if_pos hb0, show b - 1 + 1 = b by omega] at hrec
  have : (FINDflareConM c).getD (b - 1) 0 = (FINDflareConM c).getD b 0 + 1 := hrec
  omega

theorem getD_map_in (g : ℕ → ℕ) (l : List ℕ) (k : ℕ) (hk : k < l.length) :
    (l.map g).getD k 0 = g (l.getD k 0) := by
  rw [List.getD_eq_getElem _ _ (by simpa using hk), List.getElem_map,
    List.getD_eq_getElem _ _ hk]

theorem mergeBreaks_sorted (cand : List ℕ) (ms : ℕ) :
    (mergeBreaks cand ms).Pairwise (· < ·) :=
  List.Pairwise.filter _ (List.pairwise_lt_range _)

theorem mergeBreaks_mem (cand : List ℕ) (ms : ℕ) :
    ∀ x ∈ mergeBreaks cand ms,
      x < cand.length - 1 ∧ cand.getD x 0 + ms < cand.getD (x + 1) 0 := by
  intro x hx
  rw [mergeBreaks, List.mem_filter, List.mem_range] at hx
  exact ⟨hx.1, by simpa using hx.2⟩

theorem getD_mem_of_lt (l : List ℕ) (k : ℕ) (hk : k < l.length) : l.getD k 0 ∈ l := by
  rw [List.getD_eq_getElem _ _ hk]
  exact List.getElem_mem hk

theorem getD_zipWith_in (f : ℕ → ℕ → ℕ) (a b : List ℕ) (k : ℕ)
    (ha : k < a.length) (hb : k < b.length) :
    (List.zipWith f a b).getD k 0 = f (a.getD k 0) (b.getD k 0) := by
  have hk : k < (List.zipWith f a b).length := by
    rw [List.length_zipWith]; omega
  rw [List.getD_eq_getElem _ _ hk, List.getElem_zipWith,
    List.getD_eq_getElem _ _ ha, List.getD_eq_getElem _ _ hb]

theorem getD_mono_of_sorted (cand : List ℕ) (hc : cand.Pairwise (· < ·))
    (i j : ℕ) (hij : i ≤ j) (hj : j < cand.length) :
    cand.getD i 0 ≤ cand.getD j 0 := by
  rcases Nat.eq_or_lt_of_le hij with rfl | hlt
  · exact le_refl _
  · have hi : i < cand.length := by omega
    rw [List.getD_eq_getElem _ _ hi, List.getD_eq_getElem _ _ hj]
    exact Nat.le_of_lt (List.pairwise_iff_getElem.mp hc i j hi hj hlt)

theorem MergeCandidates_spec (cand : List ℕ) (ms : ℕ) (hc : cand.Pairwise (· < ·)) :
    (∀ p ∈ (MergeCandidates cand ms).1.zip (MergeCandidates cand ms).2, p.1 ≤ p.2) ∧
      ((MergeCandidates cand ms).1.zip (MergeCandidates cand ms).2).Pairwise
        (fun p q => p.2 + ms ≤ q.1) := by
  by_cases hE : cand.isEmpty
  · unfold MergeCandidates
    rw [if_pos hE]
    exact ⟨fun p hp => by simp at hp, by simp⟩
  · have hm1 : 1 ≤ cand.length := by
      rcases cand with _ | ⟨x, r⟩
      · simp at hE
      · simp
    unfold MergeCandidates
    rw [if_neg hE]
    dsimp only
    set B := mergeBreaks cand ms with hBdef
    set g : ℕ → ℕ := fun p => cand.getD p 0 with hgdef
    set SV := (((0 : ℕ) :: B.map (· + 1)).map g) with hSV
    set QV := ((B ++ [cand.length - 1]).map g) with hQV
    set ST := List.zipWith (fun s e => if s = e then e + 1 else e) SV QV with hST
    have hlenSV : SV.length = B.length + 1 := by simp [hSV]
    have hlenQV : QV.length = B.length + 1 := by simp [hQV]
    have hlenST : ST.length = B.length + 1 := by
      rw [hST, List.length_zipWith, hlenSV, hlenQV]
      simp
    have hBbound : ∀ x ∈ B, x < cand.length - 1 := fun x hx => (mergeBreaks_mem cand ms x hx).1
    have hBbreak : ∀ x ∈ B, cand.getD x 0 + ms < cand.getD (x + 1) 0 :=
      fun x hx => (mergeBreaks_mem cand ms x hx).2
    have hBsort : B.Pairwise (· < ·) := mergeBreaks_sorted cand ms
    -- values of SV and QV at each position
    have hSV0 : SV.getD 0 0 = g 0 := by rw [hSV]; simp
    have hSVsucc : ∀ k, k < B.length → SV.getD (k + 1) 0 = g (B.getD k 0 + 1) := by
      intro k hk
      rw [hSV, List.map_cons, List.getD_cons_succ, List.map_map, getD_map_in _ _ _ hk]
      rfl
    have hQVleft : ∀ k, k < B.length → QV.getD k 0 = g (B.getD k 0) := by
      intro k hk
      rw [hQV]
      have hk' : k < (B ++ [cand.length - 1]).length := by simp; omega
      rw [getD_map_in _ _ _ hk']
      congr 1
      rw [List.getD_append _ _ _ _ hk]
    have hQVright : QV.getD B.length 0 = g (cand.length - 1) := by
      rw [hQV]
      have hk' : B.length < (B ++ [cand.length - 1]).length := by simp
      rw [getD_map_in _ _ _ hk']
      congr 1
      rw [List.getD_append_right _ _ _ _ (le_refl _)]
      simp
    -- start values never exceed the matching pre-adjustment stop values
    have hSQ : ∀ j, j < B.length + 1 → SV.getD j 0 ≤ QV.getD j 0 := by
      intro j hj
      cases j with
      | zero =>
        rw [hSV0]
        by_cases h0 : 0 < B.length
        · rw [hQVleft 0 h0]
          have hmem := getD_mem_of_lt B 0 h0
          exact getD_mono_of_sorted cand hc 0 (B.getD 0 0) (Nat.zero_le _)
            (by have := hBbound _ hmem; omega)
        · have h0' : B.length = 0 := by omega
          rw [h0'] at hQVright
          rw [hQVright]
          exact getD_mono_of_sorted cand hc 0 (cand.length - 1) (Nat.zero_le _) (by omega)
      | succ k =>
        have hk : k < B.length := by omega
        rw [hSVsucc k hk]
        by_cases hkk : k + 1 < B.length
        · rw [hQVleft (k + 1) hkk]
          have hlt : B.getD k 0 < B.getD (k + 1) 0 := by
            rw [List.getD_eq_getElem _ _ hk, List.getD_eq_getElem _ _ hkk]
            exact List.pairwise_iff_getElem.mp hBsort k (k + 1) hk hkk (by omega)
          have hmem := getD_mem_of_lt B (k + 1) hkk
          exact getD_mono_of_sorted cand hc _ _ (by omega) (by have := hBbound _ hmem; omega)
        · have hkeq : k + 1 = B.length := by omega
          rw [hkeq, hQVright]
          have hmem := getD_mem_of_lt B k hk
          exact getD_mono_of_sorted cand hc _ _ (by have := hBbound _ hmem; omega) (by omega)
    -- the adjusted stop value is between the start value and stop value + 1
    have hSTval : ∀ j, j < B.length + 1 → SV.getD j 0 ≤ ST.getD j 0 ∧
        ST.getD j 0 ≤ QV.getD j 0 + 1 := by
      intro j hj
      have hzw : ST.getD j 0 = (fun s e => if s = e then e + 1 else e)
          (SV.getD j 0) (QV.getD j 0) := by
        rw [hST]
        exact getD_zipWith_in _ _ _ j (by omega) (by omega)
      simp only at hzw
      by_cases heq : SV.getD j 0 = QV.getD j 0
      · rw [if_pos heq] at hzw
        constructor
        · rw [hzw]; omega
        · rw [hzw]
      · rw [if_neg heq] at hzw
        constructor
        · rw [hzw]; exact hSQ j hj
        · rw [hzw]; omega
    -- consecutive events are separated by at least minsep
    have hstep : ∀ k, k < B.length → ST.getD k 0 + ms ≤ SV.getD (k + 1) 0 := by
      intro k hk
      have h1 := (hSTval k (by omega)).2
      rw [hQVleft k hk] at h1
      rw [hSVsucc k hk]
      have hmem := getD_mem_of_lt B k hk
      have hbr := hBbreak _ hmem
      simp only [hgdef]
      simp only [hgdef] at h1
      omega
    have hziplen : (SV.zip ST).length = B.length + 1 := by
      rw [List.length_zip, hlenSV, hlenST]
      simp
    constructor
    · intro p hp
      obtain ⟨j, hjlen, hpj⟩ := List.mem_iff_getElem.mp hp
      have hj : j < B.length + 1 := by omega
      rw [List.getElem_zip] at hpj
      have hj1 : j < SV.length := by omega
      have hj2 : j < ST.length := by omega
      rw [← List.getD_eq_getElem SV 0 hj1, ← List.getD_eq_getElem ST 0 hj2] at hpj
      rw [← hpj]
      exact (hSTval j hj).1
    · set R' : ℕ × ℕ → ℕ × ℕ → Prop :=
        fun p q => p.2 + ms ≤ q.1 ∧ p.1 ≤ p.2 ∧ q.1 ≤ q.2 with hR'
      haveI : IsTrans (ℕ × ℕ) R' := ⟨by
        intro a b c hab hbc
        obtain ⟨hab1, hab2, hab3⟩ := hab
        obtain ⟨hbc1, hbc2, hbc3⟩ := hbc
        exact ⟨by omega, hab2, hbc3⟩⟩
      have hchain : List.Chain' R' (SV.zip ST) := by
        rw [List.chain'_iff_get]
        intro i hi
        have hiB : i < B.length := by
          rw [hziplen] at hi; omega
        rw [List.get_eq_getElem, List.get_eq_getElem, List.getElem_zip, List.getElem_zip]
        have hb1 : i < SV.length := by omega
        have hb2 : i < ST.length := by omega
        have hb3 : i + 1 < SV.length := by omega
        have hb4 : i + 1 < ST.length := by omega
        rw [← List.getD_eq_getElem SV 0 hb1, ← List.getD_eq_getElem ST 0 hb2,
          ← List.getD_eq_getElem SV 0 hb3, ← List.getD_eq_getElem ST 0 hb4]
        exact ⟨hstep i hiB, (hSTval i (by omega)).1, (hSTval (i + 1) (by omega)).1⟩
      exact (List.chain'_iff_pairwise.mp hchain).imp (fun h => h.1)

theorem npDeleteNat_sublist (l : List ℕ) (pos : List ℕ) :
    List.Sublist (npDeleteNat l pos) l := by
  unfold npDeleteNat
  have h2 := List.Sublist.map (fun p => p.2) (List.filter_sublist l.enum
    (p := fun p => decide (p.1 ∉ pos)))
  rw [List.enum_map_snd] at h2
  exact h2

theorem MultiFindCand_sorted (time f e : List ℚ) (flags : List ℕ) (gw : ℚ) :
    (MultiFindCand time f e flags gw).Pairwise (· < ·) := by
  unfold MultiFindCand
  exact List.Pairwise.sublist (npDeleteNat_sublist _ _)
    (List.Pairwise.sublist (npDeleteNat_sublist _ _)
      (List.Pairwise.filter _ (List.pairwise_lt_range _)))

theorem mem_MultiFindCand0 (f e : List ℚ) (flags : List ℕ) (i : ℕ)
    (h : i ∈ MultiFindCand0 f e flags) : (FlagCutsBad flags).getD i 0 < 1 := by
  rw [MultiFindCand0, List.mem_filter] at h
  have h2 := h.2
  simp only [Bool.and_eq_true, decide_eq_true_eq] at h2
  exact h2.1

theorem mem_MultiFindCand (time f e : List ℚ) (flags : List ℕ) (gw : ℚ) (i : ℕ)
    (h : i ∈ MultiFindCand time f e flags gw) : (FlagCutsBad flags).getD i 0 < 1 := by
  unfold MultiFindCand at h
  exact mem_MultiFindCand0 f e flags i
    ((npDeleteNat_sublist _ _).subset ((npDeleteNat_sublist _ _).subset h))

theorem MergeCandidates_start_mem (cand : List ℕ) (ms : ℕ) :
    ∀ s ∈ (MergeCandidates cand ms).1, s ∈ cand := by
  intro s hs
  unfold MergeCandidates at hs
  by_cases hE : cand.isEmpty = true
  · rw [if_pos hE] at hs
    simp at hs
  · rw [if_neg hE] at hs
    dsimp only at hs
    rw [List.mem_map] at hs
    obtain ⟨p, hp, rfl⟩ := hs
    have hm1 : 1 ≤ cand.length := by
      rcases cand with _ | ⟨x, r⟩
      · simp at hE
      · simp
    have hplt : p < cand.length := by
      rcases List.mem_cons.mp hp with rfl | hp'
      · omega
      · rw [List.mem_map] at hp'
        obtain ⟨b, hb, rfl⟩ := hp'
        have := (mergeBreaks_mem cand ms b hb).1
        omega
    exact getD_mem_of_lt cand p hplt

/-- C5 (amended): quality filtering in MultiFind happens after run detection,
not before.  FINDflare runs on the full series, and indices with disallowed
quality bits are then removed from the flagged candidate points; hence every
candidate point, and in particular every event start index, has no
disallowed bits set.  A bad-quality sample can still contribute to run
lengths and can lie strictly inside a merged candidate range (see the
counterexample). -/
theorem MultiFind_bad_quality_after_detection (time fluxDiff error : List ℚ)
    (flags : List ℕ) (gw : ℚ) (ms : ℕ) :
    (∀ i ∈ MultiFindCand time fluxDiff error flags gw,
        (FlagCutsBad flags).getD i 0 < 1) ∧
      ∀ s ∈ (MultiFindEvents time fluxDiff error flags gw ms).1,
        (FlagCutsBad flags).getD s 0 < 1 := by
  constructor
  · exact fun i hi => mem_MultiFindCand time fluxDiff error flags gw i hi
  · intro s hs
    exact mem_MultiFindCand time fluxDiff error flags gw s
      (MergeCandidates_start_mem (MultiFindCand time fluxDiff error flags gw) ms s hs)

/-- C8 (amended): every FINDflare pair satisfies start <= stop and the pairs
are ordered by start and strictly non-overlapping; every MultiFind event
satisfies start <= stop, consecutive events are separated by at least minsep
(the stop+1 adjustment of single-point events can make the separation
exactly minsep rather than strictly more than minsep), and for minsep >= 1
the events are ordered and non-overlapping. -/
theorem Candidates_ordered_separated :
    (∀ (c : List Bool) (N3 : ℕ),
      (∀ p ∈ FINDflarePairs c N3, p.1 ≤ p.2) ∧
        (FINDflarePairs c N3).Pairwise (fun p q => p.2 < q.1)) ∧
    ∀ (time fluxDiff error : List ℚ) (flags : List ℕ) (gw : ℚ) (ms : ℕ),
      (∀ p ∈ (MultiFindEvents time fluxDiff error flags gw ms).1.zip
          (MultiFindEvents time fluxDiff error flags gw ms).2, p.1 ≤ p.2) ∧
        ((MultiFindEvents time fluxDiff error flags gw ms).1.zip
          (MultiFindEvents time fluxDiff error flags gw ms).2).Pairwise
            (fun p q => p.2 + ms ≤ q.1) ∧
        (1 ≤ ms → ((MultiFindEvents time fluxDiff error flags gw ms).1.zip
          (MultiFindEvents time fluxDiff error flags gw ms).2).Pairwise
            (fun p q => p.2 < q.1)) := by
  constructor
  · intro c N3
    exact ⟨FINDflarePairs_start_le_stop c N3, FINDflarePairs_disjoint c N3⟩
  · intro time f e flags gw ms
    have hspec := MergeCandidates_spec (MultiFindCand time f e flags gw) ms
      (MultiFindCand_sorted time f e flags gw)
    refine ⟨hspec.1, hspec.2, fun hms => hspec.2.imp (fun h => by omega)⟩

/-! ## Theorems: concrete evaluation of the MultiFind scenario -/

theorem range29_eval : List.range 29 = [0, 1, 2, 3, 4, 5, 6, 7, 8, 9, 10, 11, 12,
    13, 14, 15, 16, 17, 18, 19, 20, 21, 22, 23, 24, 25, 26, 27, 28] := by
  decide

theorem mfMedian : nanmedian mfFlux = 0 := by
  norm_num [nanmedian, sortQ, insertQ, mfFlux]

theorem mfRollEval : rollingVars 7 mfFlux =
    [2/7, 2/7, 2/7, 5/21, 1/7, 5/21, 2/7, 2/7, 2/7, 5/21, 1/7,
      0, 0, 0, 0, 0, 0, 0, 0, 0, 0, 0, 0] := by
  rw [rollingVars, show mfFlux.length = 29 from by decide, range29_eval]
  norm_num [List.filterMap_cons, mfFlux, varianceSample, meanQ]

theorem mfPair : FINDflareSigPair true 7 mfFlux = some (0, 0) := by
  rw [FINDflareSigPair, if_pos rfl, mfRollEval]
  norm_num [sortQ, insertQ]

theorem mfFlagsEval : FINDflareFlags mfFlux mfErr 3 1 true 7 =
    [false, false, false, false, true, true, true, false, true, true, true,
      false, false, false, false, false, false, false, false, false, false,
      false, false, false, false, false, false, false, false] := by
  rw [FINDflareFlags, show mfFlux.length = 29 from by decide, range29_eval]
  simp only [mfMedian, mfPair]
  norm_num [passCuts, ratioCut, mfFlux, mfErr]

theorem mfBinEval : FINDflareBinary mfFlux mfErr 3 1 3 true 7 =
    [false, false, false, false, true, true, true, false, true, true, true,
      false, false, false, false, false, false, false, false, false, false,
      false, false, false, false, false, false, false, false] := by
  rw [FINDflareBinary, show mfFlux.length = 29 from by decide, range29_eval]
  simp only [mfFlagsEval]
  decide

theorem mfCand0Eval : MultiFindCand0 mfFlux mfErr mfFlags = [4, 8, 9, 10] := by
  rw [MultiFindCand0, show mfFlux.length = 29 from by decide, range29_eval]
  simp only [mfBinEval]
  decide

theorem mfTimeEval : mfTime = [0, 1, 2, 3, 4, 5, 6, 7, 8, 9, 10, 11, 12, 13, 14,
    15, 16, 17, 18, 19, 20, 21, 22, 23, 24, 25, 26, 27, 28] := by
  rw [mfTime, range29_eval]
  norm_num

theorem mfCandEval : MultiFindCand mfTime mfFlux mfErr mfFlags (1/10) = [4, 8, 9, 10] := by
  rw [MultiFindCand]
  simp only [mfCand0Eval, mfTimeEval]
  norm_num [npDeleteNat, List.enum, List.enumFrom, abs_sub_lt_iff,
    List.getD_cons_zero, List.getD_cons_succ,
    show List.range 4 = [0, 1, 2, 3] from by decide]

theorem mfEval : MultiFindEvents mfTime mfFlux mfErr mfFlags (1/10) 3 = ([4, 8], [5, 10]) := by
  rw [MultiFindEvents, mfCandEval]
  decide

/-- C5 counterexample: on the MultiFind scenario the detected first event is
the index range 4 .. 5, and sample 5 has the disallowed quality bit 16 set:
a bad-quality sample appears inside a candidate range (it also contributed
to the run length that made the event detectable), so bad-quality indices
are not excluded before run detection. -/
theorem C5_bad_inside_candidate :
    MultiFindEvents mfTime mfFlux mfErr mfFlags (1/10) 3 = ([4, 8], [5, 10]) ∧
      ¬ (FlagCutsBad mfFlags).getD 5 0 < 1 ∧
      (MultiFindEvents mfTime mfFlux mfErr mfFlags (1/10) 3).1.getD 0 0 ≤ 5 ∧
      5 ≤ (MultiFindEvents mfTime mfFlux mfErr mfFlags (1/10) 3).2.getD 0 0 := by
  refine ⟨mfEval, by decide, ?_, ?_⟩ <;> rw [mfEval] <;> decide

/-- C5 witness: the amended statement applied to the concrete scenario, at
the first event start index 4. -/
theorem C5_amended_witness : (FlagCutsBad mfFlags).getD 4 0 < 1 := by
  apply (MultiFind_bad_quality_after_detection mfTime mfFlux mfErr mfFlags (1/10) 3).2 4
  rw [show (MultiFindEvents mfTime mfFlux mfErr mfFlags (1/10) 3).1 = [4, 8] from
    by rw [mfEval]]
  decide

/-- C8 counterexample: on the MultiFind scenario with minsep = 3 the first
event stops at index 5 (after the single-point stop adjustment) and the
second starts at index 8, a separation of exactly minsep samples, not more
than minsep. -/
theorem C8_separation_not_strict :
    MultiFindEvents mfTime mfFlux mfErr mfFlags (1/10) 3 = ([4, 8], [5, 10]) ∧
      ¬ (5 + 3 < 8) :=
  ⟨mfEval, by decide⟩

/-- C8 witness: the amended ordering statement applied to the concrete flag
sequence of C1 and to the concrete MultiFind scenario, with the minsep
hypothesis discharged at minsep = 3. -/
theorem C8_amended_witness :
    (FINDflarePairs specFlagSeq 3).Pairwise (fun p q => p.2 < q.1) ∧
      ((MultiFindEvents mfTime mfFlux mfErr mfFlags (1/10) 3).1.zip
        (MultiFindEvents mfTime mfFlux mfErr mfFlags (1/10) 3).2).Pairwise
          (fun p q => p.2 < q.1) :=
  ⟨(Candidates_ordered_separated.1 specFlagSeq 3).2,
   (Candidates_ordered_separated.2 mfTime mfFlux mfErr mfFlags (1/10) 3).2.2 (by decide)⟩

/-! ## Theorems: concrete FINDflare evaluation for the interior-bounds witness -/

theorem flux24Median : nanmedian flux24 = 0 := by
  norm_num [nanmedian, sortQ, insertQ, flux24]

theorem flux24Pair : FINDflareSigPair false 7 flux24 = some (4375/4, 4375/4) := by
  rw [FINDflareSigPair, if_neg (by simp), if_neg (by simp [flux24])]
  norm_num [variancePop, meanQ, flux24]

theorem flux24Flags : FINDflareFlags flux24 err24 3 1 false 7 =
    [false, true, true, true, false, false, false, false, false, false, false,
      false, false, false, false, false, false, false, false, false, false,
      false, false, false] := by
  rw [FINDflareFlags, show flux24.length = 24 from by decide,
    show List.range 24 = [0, 1, 2, 3, 4, 5, 6, 7, 8, 9, 10, 11, 12, 13, 14, 15,
      16, 17, 18, 19, 20, 21, 22, 23] from by decide]
  simp only [flux24Median, flux24Pair]
  norm_num [passCuts, ratioCut, flux24, err24]

theorem flux24Pairs : FINDflare flux24 err24 3 1 3 false 7 = ([1], [3]) := by
  rw [FINDflare]
  simp only [flux24Flags]
  decide

/-- C10 witness: the interior-bounds statement applied to the concrete
24-sample spike, whose single detected pair is (1, 3). -/
theorem FINDflare_interior_bounds_witness :
    2 ≤ flux24.length ∧ 1 ≤ 1 ∧ 3 ≤ flux24.length - 2 := by
  refine ⟨by decide, FINDflare_interior_bounds flux24 err24 3 1 3 false 7 (by decide) 1 3 ?_⟩
  rw [flux24Pairs]
  decide

/-! ## Theorems: the per-sample cuts of FINDflare -/

theorem mem_insertQ (x a : ℚ) (l : List ℚ) : x ∈ insertQ a l ↔ x = a ∨ x ∈ l := by
  induction l with
  | nil => simp [insertQ]
  | cons y r ih =>
    rw [insertQ]
    by_cases h : a ≤ y
    · rw [if_pos h]
      simp
    · rw [if_neg h]
      simp only [List.mem_cons, ih]
      tauto

theorem insertQ_pairwise (a : ℚ) (l : List ℚ) (hl : l.Pairwise (· ≤ ·)) :
    (insertQ a l).Pairwise (· ≤ ·) := by
  induction l with
  | nil => simp [insertQ]
  | cons y r ih =>
    rw [List.pairwise_cons] at hl
    rw [insertQ]
    by_cases h : a ≤ y
    · rw [if_pos h]
      refine List.pairwise_cons.mpr ⟨?_, List.pairwise_cons.mpr hl⟩
      intro b hb
      rcases List.mem_cons.mp hb with rfl | hb
      · exact h
      · exact le_trans h (hl.1 b hb)
    · rw [if_neg h]
      refine List.pairwise_cons.mpr ⟨?_, ih hl.2⟩
      intro b hb
      rcases (mem_insertQ b a r).mp hb with rfl | hb
      · exact le_of_lt (lt_of_not_le h)
      · exact hl.1 b hb

theorem insertQ_perm (a : ℚ) (l : List ℚ) : (insertQ a l).Perm (a :: l) := by
  induction l with
  | nil => rfl
  | cons y r ih =>
    rw [insertQ]
    by_cases h : a ≤ y
    · rw [if_pos h]
    · rw [if_neg h]
      exact (ih.cons y).trans (List.Perm.swap a y r)

theorem sortQ_sorted (l : List ℚ) : (sortQ l).Pairwise (· ≤ ·) := by
  induction l with
  | nil => simp [sortQ]
  | cons x r ih => exact insertQ_pairwise x (sortQ r) ih

theorem sortQ_perm (l : List ℚ) : (sortQ l).Perm l := by
  induction l with
  | nil => rfl
  | cons x r ih => exact (insertQ_perm x (sortQ r)).trans (ih.cons x)

theorem sum_sq_nonneg (l : List ℚ) (m : ℚ) :
    0 ≤ (l.map (fun x => (x - m) ^ 2)).sum := by
  apply List.sum_nonneg
  intro x hx
  rcases List.mem_map.mp hx with ⟨a, _, rfl⟩
  positivity

theorem variancePop_nonneg (l : List ℚ) : 0 ≤ variancePop l :=
  div_nonneg (sum_sq_nonneg l (meanQ l)) (by positivity)

theorem varianceSample_nonneg (l : List ℚ) : 0 ≤ varianceSample l := by
  rcases l with _ | ⟨x, r⟩
  · simp [varianceSample]
  · apply div_nonneg (sum_sq_nonneg _ _)
    have hc : ((x :: r).length : ℚ) = (r.length : ℚ) + 1 := by
      push_cast [List.length_cons]
      ring
    rw [hc]
    have hr : (0 : ℚ) ≤ (r.length : ℚ) := by positivity
    linarith

theorem rollingVars_nonneg (w : ℕ) (l : List ℚ) : ∀ v ∈ rollingVars w l, 0 ≤ v := by
  intro v hv
  rcases List.mem_filterMap.mp hv with ⟨i, _, hi⟩
  by_cases hc : w / 2 ≤ i ∧ i + w / 2 < l.length
  · rw [if_pos hc] at hi
    cases hi
    exact varianceSample_nonneg _
  · rw [if_neg hc] at hi
    cases hi

theorem mem_sortQ (x : ℚ) (l : List ℚ) : x ∈ sortQ l ↔ x ∈ l :=
  (sortQ_perm l).mem_iff

theorem getD_mem_Q (l : List ℚ) (k : ℕ) (hk : k < l.length) : l.getD k 0 ∈ l := by
  rw [List.getD_eq_getElem _ _ hk]
  exact List.getElem_mem hk

theorem getD_map_sqrt (l : List ℚ) (k : ℕ) (hk : k < l.length) :
    (l.map (fun v : ℚ => Real.sqrt (v : ℝ))).getD k 0 =
      Real.sqrt ((l.getD k 0 : ℚ) : ℝ) := by
  rw [List.getD_eq_getElem _ _ (by simpa using hk), List.getElem_map,
    List.getD_eq_getElem _ _ hk]

theorem sigPair_nonneg (avgStd : Bool) (w : ℕ) (flux : List ℚ) (va vb : ℚ)
    (h : FINDflareSigPair avgStd w flux = some (va, vb)) : 0 ≤ va ∧ 0 ≤ vb := by
  cases avgStd with
  | false =>
    unfold FINDflareSigPair at h
    rw [if_neg (by simp)] at h
    by_cases he : flux.isEmpty
    · rw [if_pos he] at h
      cases h
    · rw [if_neg he] at h
      injection h with h
      injection h with h1 h2
      exact ⟨h1 ▸ variancePop_nonneg flux, h2 ▸ variancePop_nonneg flux⟩
  | true =>
    unfold FINDflareSigPair at h
    rw [if_pos rfl] at h
    by_cases hemp : (sortQ (rollingVars w flux)).isEmpty
    · rw [if_pos hemp] at h
      cases h
    · rw [if_neg hemp] at h
      injection h with h
      injection h with h1 h2
      have hlen : 0 < (sortQ (rollingVars w flux)).length := by
        cases hsl : sortQ (rollingVars w flux) with
        | nil => rw [hsl] at hemp; simp at hemp
        | cons a t => simp
      constructor
      · rw [← h1]
        exact rollingVars_nonneg w flux _
          ((mem_sortQ _ _).mp (getD_mem_Q _ _ (by omega)))
      · rw [← h2]
        exact rollingVars_nonneg w flux _
          ((mem_sortQ _ _).mp (getD_mem_Q _ _ (by omega)))

theorem FINDflareFlags_getD (flux error : List ℚ) (N1 N2 : ℚ) (avgStd : Bool)
    (w : ℕ) (i : ℕ) (hi : i < flux.length) :
    (FINDflareFlags flux error N1 N2 avgStd w).getD i false =
      passCuts (nanmedian flux) (FINDflareSigPair avgStd w flux) N1 N2
        (flux.getD i 0) (error.getD i 0) := by
  rw [FINDflareFlags]
  have hi2 : i < ((List.range flux.length).map (fun i =>
      passCuts (nanmedian flux) (FINDflareSigPair avgStd w flux) N1 N2
        (flux.getD i 0) (error.getD i 0))).length := by
    simpa using hi
  rw [List.getD_eq_getElem _ _ hi2, List.getElem_map, List.getElem_range]

theorem ratioCut_iff (N y va vb : ℚ) (hva : 0 ≤ va) (hvb : 0 ≤ vb) (hN : 0 ≤ N)
    (hpos : 0 < Real.sqrt (va : ℝ) + Real.sqrt (vb : ℝ)) :
    ratioCut N y va vb = true ↔
      (N : ℝ) < |(y : ℝ)| / ((Real.sqrt (va : ℝ) + Real.sqrt (vb : ℝ)) / 2) := by
  have hsa : Real.sqrt (va : ℝ) * Real.sqrt (va : ℝ) = (va : ℝ) :=
    Real.mul_self_sqrt (by exact_mod_cast hva)
  have hsb : Real.sqrt (vb : ℝ) * Real.sqrt (vb : ℝ) = (vb : ℝ) :=
    Real.mul_self_sqrt (by exact_mod_cast hvb)
  have hsa0 : 0 ≤ Real.sqrt (va : ℝ) := Real.sqrt_nonneg _
  have hsb0 : 0 ≤ Real.sqrt (vb : ℝ) := Real.sqrt_nonneg _
  have habs : |(y : ℝ)| * |(y : ℝ)| = (y : ℝ) * (y : ℝ) := abs_mul_abs_self _
  have habs0 : 0 ≤ |(y : ℝ)| := abs_nonneg _
  have hhalf : (0 : ℝ) < (Real.sqrt (va : ℝ) + Real.sqrt (vb : ℝ)) / 2 := by linarith
  rw [lt_div_iff₀ hhalf]
  set sa := Real.sqrt (va : ℝ) with hsadef
  set sb := Real.sqrt (vb : ℝ) with hsbdef
  have hmain : ((N : ℝ) * ((sa + sb) / 2) < |(y : ℝ)|) ↔
      ((N : ℝ) * (sa + sb) < 2 * |(y : ℝ)|) := by
    constructor <;> intro h <;> linarith
  rw [hmain]
  rcases lt_or_eq_of_le hN with hN0 | hN0
  · rw [ratioCut, if_neg (not_le.mpr hN0)]
    simp only [Bool.and_eq_true, decide_eq_true_eq]
    have hN0R : (0 : ℝ) < (N : ℝ) := by exact_mod_cast hN0
    have hexp : ((N : ℝ) * (sa + sb)) * ((N : ℝ) * (sa + sb)) =
        (N : ℝ) ^ 2 * ((va : ℝ) + (vb : ℝ)) + 2 * (N : ℝ) ^ 2 * (sa * sb) := by
      linear_combination ((N : ℝ) ^ 2) * hsa + ((N : ℝ) ^ 2) * hsb
    have hy4 : (2 * |(y : ℝ)|) * (2 * |(y : ℝ)|) = 4 * (y : ℝ) ^ 2 := by
      linear_combination 4 * habs
    have hprod : (2 * (N : ℝ) ^ 2 * (sa * sb)) * (2 * (N : ℝ) ^ 2 * (sa * sb)) =
        4 * (N : ℝ) ^ 4 * ((va : ℝ) * (vb : ℝ)) := by
      linear_combination (4 * (N : ℝ) ^ 4 * (sb * sb)) * hsa +
        (4 * (N : ℝ) ^ 4 * (va : ℝ)) * hsb
    constructor
    · rintro ⟨hA, hA2⟩
      have hAR : (0 : ℝ) < 4 * (y : ℝ) ^ 2 - (N : ℝ) ^ 2 * ((va : ℝ) + (vb : ℝ)) := by
        have h0 : ((0 : ℚ) : ℝ) < ((4 * y ^ 2 - N ^ 2 * (va + vb) : ℚ) : ℝ) := by
          exact_mod_cast hA
        push_cast at h0
        linarith
      have hAR2 : 4 * (N : ℝ) ^ 4 * ((va : ℝ) * (vb : ℝ)) <
          (4 * (y : ℝ) ^ 2 - (N : ℝ) ^ 2 * ((va : ℝ) + (vb : ℝ))) ^ 2 := by
        have h0 : ((4 * N ^ 4 * (va * vb) : ℚ) : ℝ) <
            (((4 * y ^ 2 - N ^ 2 * (va + vb)) ^ 2 : ℚ) : ℝ) := by
          exact_mod_cast hA2
        push_cast at h0
        linarith
      have hstep1 : 2 * (N : ℝ) ^ 2 * (sa * sb) <
          4 * (y : ℝ) ^ 2 - (N : ℝ) ^ 2 * ((va : ℝ) + (vb : ℝ)) := by
        rw [mul_self_lt_mul_self_iff (by positivity) hAR.le, hprod]
        nlinarith [hAR2]
      rw [mul_self_lt_mul_self_iff (by positivity) (by positivity :
        (0 : ℝ) ≤ 2 * |(y : ℝ)|), hexp, hy4]
      linarith
    · intro h
      have hsq2 : ((N : ℝ) * (sa + sb)) * ((N : ℝ) * (sa + sb)) <
          (2 * |(y : ℝ)|) * (2 * |(y : ℝ)|) :=
        (mul_self_lt_mul_self_iff (by positivity) (by positivity)).mp h
      rw [hexp, hy4] at hsq2
      have hARpos : (0 : ℝ) < 4 * (y : ℝ) ^ 2 - (N : ℝ) ^ 2 * ((va : ℝ) + (vb : ℝ)) := by
        have hge : (0 : ℝ) ≤ 2 * (N : ℝ) ^ 2 * (sa * sb) := by positivity
        linarith
      have hstep1 : 2 * (N : ℝ) ^ 2 * (sa * sb) <
          4 * (y : ℝ) ^ 2 - (N : ℝ) ^ 2 * ((va : ℝ) + (vb : ℝ)) := by linarith
      have hsq3 : 4 * (N : ℝ) ^ 4 * ((va : ℝ) * (vb : ℝ)) <
          (4 * (y : ℝ) ^ 2 - (N : ℝ) ^ 2 * ((va : ℝ) + (vb : ℝ))) *
            (4 * (y : ℝ) ^ 2 - (N : ℝ) ^ 2 * ((va : ℝ) + (vb : ℝ))) := by
        rw [← hprod]
        exact (mul_self_lt_mul_self_iff (by positivity) hARpos.le).mp hstep1
      constructor
      · have h0 : ((0 : ℚ) : ℝ) < ((4 * y ^ 2 - N ^ 2 * (va + vb) : ℚ) : ℝ) := by
          push_cast
          linarith
        exact_mod_cast h0
      · have h0 : ((4 * N ^ 4 * (va * vb) : ℚ) : ℝ) <
            (((4 * y ^ 2 - N ^ 2 * (va + vb)) ^ 2 : ℚ) : ℝ) := by
          push_cast
          nlinarith [hsq3]
        exact_mod_cast h0
  · rw [ratioCut, if_pos (le_of_eq hN0.symm), ← hN0]
    simp only [lt_self_iff_false, decide_False, Bool.false_and, Bool.or_false,
      decide_eq_true_eq]
    rw [Rat.cast_zero, zero_mul]
    have hcast : (0 : ℚ) < |y| ↔ (0 : ℝ) < |(y : ℝ)| := by
      rw [← Rat.cast_abs]
      exact_mod_cast Iff.rfl
    rw [hcast]
    constructor <;> intro h <;> linarith

/-- C2 (amended): FINDflare applies its three per-sample criteria to the
MEDIAN-SUBTRACTED flux, not to the raw input residual (see the
counterexample): with r = flux[i] - median(flux) and sigma the noise scale
of the chosen mode, sample i is flagged iff r > 0, |r| / sigma > N1 and
|r - error[i]| / sigma > N2, whenever sigma is defined and positive (when
there is no data, sigma is NaN and nothing is flagged).  Part one
identifies the carried pair (va, vb) as the source's sigma in avg_std mode,
the nanmedian of the rolling standard deviations: the square roots of the
sorted rolling variances form a sorted permutation of the rolling standard
deviations whose two middle elements are sqrt va and sqrt vb, so their mean
(sqrt va + sqrt vb) / 2 is the median of the standard deviations; in the
default mode va = vb = the population variance of the flux, so the same
expression is np.nanstd(flux).  Part two states the flag criterion against
that sigma. -/
theorem FINDflare_cuts_on_median_subtracted :
    (∀ (w : ℕ) (flux : List ℚ) (va vb : ℚ),
      FINDflareSigPair true w flux = some (va, vb) →
        ((sortQ (rollingVars w flux)).map (fun v : ℚ => Real.sqrt (v : ℝ))).Pairwise
            (· ≤ ·) ∧
          ((sortQ (rollingVars w flux)).map (fun v : ℚ => Real.sqrt (v : ℝ))).Perm
            ((rollingVars w flux).map (fun v : ℚ => Real.sqrt (v : ℝ))) ∧
          ((sortQ (rollingVars w flux)).map (fun v : ℚ => Real.sqrt (v : ℝ))).getD
            ((((sortQ (rollingVars w flux)).map
              (fun v : ℚ => Real.sqrt (v : ℝ))).length - 1) / 2) 0 =
            Real.sqrt (va : ℝ) ∧
          ((sortQ (rollingVars w flux)).map (fun v : ℚ => Real.sqrt (v : ℝ))).getD
            (((sortQ (rollingVars w flux)).map
              (fun v : ℚ => Real.sqrt (v : ℝ))).length / 2) 0 = Real.sqrt (vb : ℝ)) ∧
    ∀ (flux error : List ℚ) (N1 N2 : ℚ) (avgStd : Bool) (w : ℕ) (i : ℕ) (va vb : ℚ),
      0 ≤ N1 → 0 ≤ N2 → FINDflareSigPair avgStd w flux = some (va, vb) →
      0 < Real.sqrt (va : ℝ) + Real.sqrt (vb : ℝ) → i < flux.length →
      ((FINDflareFlags flux error N1 N2 avgStd w).getD i false = true ↔
        (0 < (flux.getD i 0 : ℝ) - ((nanmedian flux : ℚ) : ℝ) ∧
          (N1 : ℝ) < |(flux.getD i 0 : ℝ) - ((nanmedian flux : ℚ) : ℝ)| /
            ((Real.sqrt (va : ℝ) + Real.sqrt (vb : ℝ)) / 2) ∧
          (N2 : ℝ) < |(flux.getD i 0 : ℝ) - ((nanmedian flux : ℚ) : ℝ)
              - (error.getD i 0 : ℝ)| /
            ((Real.sqrt (va : ℝ) + Real.sqrt (vb : ℝ)) / 2))) := by
  constructor
  · intro w flux va vb h
    unfold FINDflareSigPair at h
    rw [if_pos rfl] at h
    by_cases hemp : (sortQ (rollingVars w flux)).isEmpty
    · rw [if_pos hemp] at h
      cases h
    · rw [if_neg hemp] at h
      injection h with h
      injection h with h1 h2
      have hlen : 0 < (sortQ (rollingVars w flux)).length := by
        cases hsl : sortQ (rollingVars w flux) with
        | nil => rw [hsl] at hemp; simp at hemp
        | cons a t => simp
      refine ⟨?_, ?_, ?_, ?_⟩
      · exact (sortQ_sorted _).map _
          (fun a b hab => Real.sqrt_le_sqrt (by exact_mod_cast hab))
      · exact (sortQ_perm _).map _
      · rw [List.length_map, getD_map_sqrt _ _ (by omega), h1]
      · rw [List.length_map, getD_map_sqrt _ _ (by omega), h2]
  · intro flux error N1 N2 avgStd w i va vb hN1 hN2 hp hpos hi
    obtain ⟨hva, hvb⟩ := sigPair_nonneg avgStd w flux va vb hp
    rw [FINDflareFlags_getD flux error N1 N2 avgStd w i hi, hp]
    simp only [passCuts, Bool.and_eq_true, decide_eq_true_eq, and_assoc]
    have h1 : (0 < flux.getD i 0 - nanmedian flux) ↔
        (0 < (flux.getD i 0 : ℝ) - ((nanmedian flux : ℚ) : ℝ)) := by
      constructor <;> intro h
      · have h0 : ((0 : ℚ) : ℝ) < ((flux.getD i 0 - nanmedian flux : ℚ) : ℝ) := by
          exact_mod_cast h
        push_cast at h0
        linarith
      · have h0 : ((0 : ℚ) : ℝ) < ((flux.getD i 0 - nanmedian flux : ℚ) : ℝ) := by
          push_cast
          linarith
        exact_mod_cast h0
    have h2 := ratioCut_iff N1 (flux.getD i 0 - nanmedian flux) va vb hva hvb hN1 hpos
    have h3 := ratioCut_iff N2 (flux.getD i 0 - nanmedian flux - error.getD i 0) va vb
      hva hvb hN2 hpos
    rw [show (((flux.getD i 0 - nanmedian flux : ℚ)) : ℝ) =
        (flux.getD i 0 : ℝ) - ((nanmedian flux : ℚ) : ℝ) from by push_cast; ring] at h2
    rw [show (((flux.getD i 0 - nanmedian flux - error.getD i 0 : ℚ)) : ℝ) =
        (flux.getD i 0 : ℝ) - ((nanmedian flux : ℚ) : ℝ) - (error.getD i 0 : ℝ) from by
      push_cast; ring] at h3
    exact and_congr h1 (and_congr h2 h3)

theorem fluxC2Median : nanmedian fluxC2 = 100 := by
  norm_num [nanmedian, sortQ, insertQ, fluxC2]

theorem fluxC2Pair : FINDflareSigPair false 7 fluxC2 = some (9, 9) := by
  rw [FINDflareSigPair, if_neg (by simp), if_neg (by simp [fluxC2])]
  norm_num [variancePop, meanQ, fluxC2]

theorem fluxC2Flags : FINDflareFlags fluxC2 errC2 3 1 false 7 =
    [false, false, false, false, false, false, false, false, false, true] := by
  rw [FINDflareFlags, show fluxC2.length = 10 from by decide,
    show List.range 10 = [0, 1, 2, 3, 4, 5, 6, 7, 8, 9] from by decide]
  simp only [fluxC2Median, fluxC2Pair]
  norm_num [passCuts, ratioCut, fluxC2, errC2]

/-- C2 counterexample: on the flux 100,...,100,110 with the default
thresholds, sample 0 satisfies all three criteria stated on the raw input
residual (flux[0] = 100 > 0, and 100/sigma = 100/3 exceeds both N1 = 3 and
N2 = 1), yet FINDflare does not flag it, because the code subtracts the
median 100 of the input before testing. -/
theorem C2_raw_residual_fails :
    ¬ ((FINDflareFlags fluxC2 errC2 3 1 false 7).getD 0 false = true ↔
      (0 < (fluxC2.getD 0 0 : ℝ) ∧
        (3 : ℝ) < |(fluxC2.getD 0 0 : ℝ)| / Real.sqrt ((variancePop fluxC2 : ℚ) : ℝ) ∧
        (1 : ℝ) < |(fluxC2.getD 0 0 : ℝ) - (errC2.getD 0 0 : ℝ)| /
          Real.sqrt ((variancePop fluxC2 : ℚ) : ℝ))) := by
  intro hiff
  have hvar : variancePop fluxC2 = 9 := by
    norm_num [variancePop, meanQ, fluxC2]
  have hsqrt : Real.sqrt (((9 : ℚ)) : ℝ) = 3 := by
    rw [show (((9 : ℚ)) : ℝ) = (3 : ℝ) ^ 2 from by norm_num, Real.sqrt_sq (by norm_num)]
  have hflag : (FINDflareFlags fluxC2 errC2 3 1 false 7).getD 0 false = false := by
    rw [fluxC2Flags]
    decide
  have hcrit : (0 < (fluxC2.getD 0 0 : ℝ) ∧
      (3 : ℝ) < |(fluxC2.getD 0 0 : ℝ)| / Real.sqrt ((variancePop fluxC2 : ℚ) : ℝ) ∧
      (1 : ℝ) < |(fluxC2.getD 0 0 : ℝ) - (errC2.getD 0 0 : ℝ)| /
        Real.sqrt ((variancePop fluxC2 : ℚ) : ℝ)) := by
    rw [hvar, hsqrt]
    norm_num [fluxC2, errC2]
  rw [hflag] at hiff
  exact absurd (hiff.mpr hcrit) (by simp)

/-- C2 witness: part one of the amended statement applied at the concrete
29-sample avg_std scenario (23 complete rolling windows, middle sorted
variance 0 on both sides), and part two applied at the flagged sample 9 of
the counterexample flux with va = vb = 9 (sigma = 3), all hypotheses
discharged concretely. -/
theorem C2_cuts_witness :
    (((sortQ (rollingVars 7 mfFlux)).map (fun v : ℚ => Real.sqrt (v : ℝ))).Pairwise
        (· ≤ ·) ∧
      ((sortQ (rollingVars 7 mfFlux)).map (fun v : ℚ => Real.sqrt (v : ℝ))).Perm
        ((rollingVars 7 mfFlux).map (fun v : ℚ => Real.sqrt (v : ℝ))) ∧
      ((sortQ (rollingVars 7 mfFlux)).map (fun v : ℚ => Real.sqrt (v : ℝ))).getD
        ((((sortQ (rollingVars 7 mfFlux)).map
          (fun v : ℚ => Real.sqrt (v : ℝ))).length - 1) / 2) 0 =
        Real.sqrt ((0 : ℚ) : ℝ) ∧
      ((sortQ (rollingVars 7 mfFlux)).map (fun v : ℚ => Real.sqrt (v : ℝ))).getD
        (((sortQ (rollingVars 7 mfFlux)).map
          (fun v : ℚ => Real.sqrt (v : ℝ))).length / 2) 0 = Real.sqrt ((0 : ℚ) : ℝ)) ∧
    ((FINDflareFlags fluxC2 errC2 3 1 false 7).getD 9 false = true ↔
      (0 < (fluxC2.getD 9 0 : ℝ) - ((nanmedian fluxC2 : ℚ) : ℝ) ∧
        (((3 : ℚ)) : ℝ) < |(fluxC2.getD 9 0 : ℝ) - ((nanmedian fluxC2 : ℚ) : ℝ)| /
          ((Real.sqrt ((9 : ℚ) : ℝ) + Real.sqrt ((9 : ℚ) : ℝ)) / 2) ∧
        (((1 : ℚ)) : ℝ) < |(fluxC2.getD 9 0 : ℝ) - ((nanmedian fluxC2 : ℚ) : ℝ)
            - (errC2.getD 9 0 : ℝ)| /
          ((Real.sqrt ((9 : ℚ) : ℝ) + Real.sqrt ((9 : ℚ) : ℝ)) / 2))) :=
  ⟨FINDflare_cuts_on_median_subtracted.1 7 mfFlux 0 0 mfPair,
   FINDflare_cuts_on_median_subtracted.2 fluxC2 errC2 3 1 false 7 9 9 9 (by norm_num)
     (by norm_num) fluxC2Pair
     (by
       have h9 : (0 : ℝ) < ((9 : ℚ) : ℝ) := by norm_num
       have hsq := Real.sqrt_pos.mpr h9
       linarith)
     (by decide)⟩

/-! ## Theorems: completeness thresholds -/

theorem foldl_min_const (l : List ℚ) (a : ℚ) (h : ∀ x ∈ l, a ≤ x) :
    l.foldl min a = a := by
  induction l generalizing a with
  | nil => rfl
  | cons x r ih =>
    rw [List.foldl_cons, min_eq_left (h x (by simp))]
    exact ih a (fun y hy => h y (by simp [hy]))

theorem sel_min_eq_first (L : List (ℚ × ℚ)) (p : ℚ × ℚ → Bool)
    (hL : L.Pairwise (fun a b => a.1 ≤ b.1)) :
    (if (L.filter p).isEmpty then (-99 : ℚ)
      else minD ((L.filter p).map (fun q => q.1))) =
      (((L.find? p).map (fun q => q.1)).getD (-99)) := by
  induction L with
  | nil => rfl
  | cons a L ih =>
    rw [List.pairwise_cons] at hL
    by_cases hp : p a = true
    · rw [List.filter_cons_of_pos hp, List.find?_cons_of_pos _ hp]
      have hne : (a :: List.filter p L).isEmpty = false := rfl
      rw [hne]
      simp only [Bool.false_eq_true, if_false, List.map_cons, Option.map_some,
        Option.getD_some]
      show ((List.filter p L).map (fun q => q.1)).foldl min a.1 = a.1
      apply foldl_min_const
      intro x hx
      rw [List.mem_map] at hx
      obtain ⟨q, hq, rfl⟩ := hx
      exact hL.1 q (List.mem_of_mem_filter hq)
    · rw [List.filter_cons_of_neg hp, List.find?_cons_of_neg _ hp]
      exact ih hL.2

theorem finiteBins_fst_sorted (centers : List ℚ) (frac : List (Option ℚ))
    (hlen : centers.length = frac.length) (hsort : centers.Pairwise (· ≤ ·)) :
    ((finiteBins centers frac).map (fun p => p.1)).Pairwise (· ≤ ·) := by
  unfold finiteBins
  rw [List.map_map, List.pairwise_map]
  have hzip : (centers.zip frac).Pairwise (fun a b => a.1 ≤ b.1) := by
    rw [List.pairwise_iff_getElem]
    intro i j hi hj hij
    rw [List.getElem_zip, List.getElem_zip]
    simp only
    have hlen2 : (centers.zip frac).length = centers.length := by
      rw [List.length_zip, hlen]
      simp
    exact List.pairwise_iff_getElem.mp hsort i j (by omega) (by omega) hij
  exact List.Pairwise.sublist (List.filter_sublist _) hzip

/-- C3: the ed68/ed90 computation equals the specification "minimum
bin-center equivalent duration at which the smoothed recovered-fraction
curve first reaches the threshold" whenever the bin centers are sorted (as
the np.histogram bin centers the pipeline passes always are), and both
sides produce the sentinel -99 when the smoothed curve never reaches the
threshold. -/
theorem ed_threshold_first_reach (centers : List ℚ) (frac : List (Option ℚ)) (t : ℚ)
    (hlen : centers.length = frac.length) (hsort : centers.Pairwise (· ≤ ·)) :
    edThreshold centers frac t = specFirstReach centers frac t := by
  unfold edThreshold specFirstReach
  apply sel_min_eq_first
  have hxs := finiteBins_fst_sorted centers frac hlen hsort
  rw [List.pairwise_iff_getElem]
  intro i j hi hj hij
  rw [List.getElem_zip, List.getElem_zip]
  simp only
  have hlen2 : (((finiteBins centers frac).map (fun p => p.1)).zip
      (wiener3 ((finiteBins centers frac).map (fun p => p.2)))).length ≤
        ((finiteBins centers frac).map (fun p => p.1)).length := by
    rw [List.length_zip]
    omega
  exact List.pairwise_iff_getElem.mp hxs i j (by omega) (by omega) hij

/-- C3 witness: the equality applied to a concrete sorted five-bin curve
(both sides evaluate to the bin center 3). -/
theorem ed_threshold_witness :
    edThreshold edCenters5 edFrac5 (68/100) = specFirstReach edCenters5 edFrac5 (68/100) :=
  ed_threshold_first_reach edCenters5 edFrac5 (68/100) (by decide)
    (by norm_num [edCenters5, List.pairwise_cons])

/-! ## Theorems: the dofake sentinel of RunLC -/

/-- C9: when completeness estimation is disabled (dofake = False), the
ed68/ed90 values attached to every emitted flare event are the sentinel
-199, which is distinct from the sentinel -99 used when the smoothed
recovered fraction never reaches the threshold. -/
theorem RunLC_nofake_sentinel (centers : List ℚ) (frac : List (Option ℚ)) (n : ℕ)
    (x : ℚ)
    (hx : x ∈ (RunLCsegmentEDs false centers frac n).1 ∨
      x ∈ (RunLCsegmentEDs false centers frac n).2) :
    x = -199 ∧ x ≠ -99 := by
  have hval : x = -199 := by
    rcases hx with hx | hx
    · have := List.eq_of_mem_replicate hx
      simpa using this
    · have := List.eq_of_mem_replicate hx
      simpa using this
  refine ⟨hval, ?_⟩
  rw [hval]
  norm_num

/-- C9 witness: the sentinel statement applied to the single event of a
one-event segment with an empty completeness curve. -/
theorem RunLC_nofake_witness : (-199 : ℚ) = -199 ∧ (-199 : ℚ) ≠ -99 :=
  RunLC_nofake_sentinel [] [] 1 (-199) (Or.inl (by simp [RunLCsegmentEDs]))

/-! ## Theorems: FlareStats -/

theorem pyGet_ok (l : List ℚ) (i : ℤ) (h0 : 0 ≤ i) (h1 : i < (l.length : ℤ)) :
    pyGet l i = Except.ok (l.getD i.toNat 0) := by
  rw [pyGet, if_pos ⟨h0, h1⟩]

theorem pyFancy_isOk (l : List ℚ) (idx : List ℤ)
    (h : ∀ x ∈ idx, 0 ≤ x ∧ x < (l.length : ℤ)) :
    ∃ v, pyFancy l idx = Except.ok v := by
  induction idx with
  | nil => exact ⟨[], rfl⟩
  | cons a r ih =>
    obtain ⟨v, hv⟩ := ih (fun x hx => h x (List.mem_cons_of_mem a hx))
    refine ⟨l.getD a.toNat 0 :: v, ?_⟩
    rw [pyFancy] at hv ⊢
    rw [List.mapM_cons, pyGet_ok l a (h a (List.mem_cons_self a r)).1
      (h a (List.mem_cons_self a r)).2, hv]
    rfl

theorem pySlice_length (l : List ℚ) (i j : ℤ) (h0 : 0 ≤ i) (hij : i ≤ j)
    (hj : j ≤ (l.length : ℤ)) : (pySlice l i j).length = (j - i).toNat := by
  simp only [pySlice]
  rw [if_neg (by omega), if_neg (by omega)]
  rw [min_eq_left (by omega : i ≤ (l.length : ℤ)), min_eq_left hj]
  rw [List.length_take, List.length_drop]
  omega

theorem contSetup_valid (time : List ℚ) (lo1 hi1 lo2 hi2 : ℚ) (a b : ℤ) (cp : ℕ)
    (n : ℕ) (hT : time.length = n) (ha : 0 ≤ a) (hb : b < (n : ℤ)) (hab : a ≤ b) :
    ∀ x ∈ (contSetup (npWhereInRange time lo1 hi1) (npWhereInRange time lo2 hi2)
      a b cp).1, 0 ≤ x ∧ x < (n : ℤ) := by
  intro x hx
  rw [contSetup] at hx
  by_cases hc : npWhereInRange time lo1 hi1 ++ npWhereInRange time lo2 hi2 = []
  · rw [if_pos hc] at hx
    simp only [List.mem_cons, List.mem_singleton] at hx
    rcases hx with rfl | hx
    · exact ⟨ha, by omega⟩
    · rcases hx with rfl | hx
      · exact ⟨by omega, hb⟩
      · simp at hx
  · rw [if_neg hc] at hx
    rw [List.mem_map] at hx
    obtain ⟨k, hk, rfl⟩ := hx
    rw [List.mem_append] at hk
    have hkn : k < time.length := by
      rcases hk with hk | hk <;>
        (rw [npWhereInRange, List.mem_filter, List.mem_range] at hk; exact hk.1)
    constructor
    · exact Int.natCast_nonneg k
    · rw [← hT]
      exact_mod_cast hkn

theorem flareStatsPre_ok (pf : List ℚ → List ℚ → ℕ → List ℚ)
    (ks : List ℚ → List ℚ → ℚ × ℚ) (time flux error model : List ℚ) (i0 i1 : ℤ)
    (cp : ℕ) (hT : time.length = flux.length)
    (ha : 0 ≤ (adjustFlareRange i0 i1 flux.length).1)
    (hb : (adjustFlareRange i0 i1 flux.length).2 < (flux.length : ℤ))
    (hab : (adjustFlareRange i0 i1 flux.length).1 < (adjustFlareRange i0 i1 flux.length).2) :
    isOkE (FlareStatsPre pf ks time flux error model i0 i1 cp) = true := by
  have haT : (adjustFlareRange i0 i1 flux.length).1 < (time.length : ℤ) := by
    rw [hT]; omega
  have hbT : (adjustFlareRange i0 i1 flux.length).2 < (time.length : ℤ) := by
    rw [hT]; omega
  rw [FlareStatsPre]
  dsimp only
  split
  next tstart tstop heq1 heq2 =>
    split
    next contflux conttime heq3 heq4 =>
      split
      next heqD =>
        exfalso
        have hlen := congrArg List.length heqD
        rw [List.length_zipWith, List.length_map,
          pySlice_length flux (adjustFlareRange i0 i1 flux.length).1
            ((adjustFlareRange i0 i1 flux.length).2 + 1) ha (by omega) (by omega),
          pySlice_length time (adjustFlareRange i0 i1 flux.length).1
            ((adjustFlareRange i0 i1 flux.length).2 + 1) ha (by omega) (by omega)] at hlen
        simp at hlen
        omega
      next d0 dr heqD => rfl
    next hno =>
      exfalso
      apply hno
      · exact (pyFancy_isOk flux _ (contSetup_valid time _ _ _ _ _ _ cp flux.length
          hT ha hb (le_of_lt hab))).choose_spec
      · exact (pyFancy_isOk time _ (contSetup_valid time _ _ _ _ _ _ cp time.length
          rfl ha hbT (le_of_lt hab))).choose_spec
  next hno =>
    exfalso
    apply hno
    · exact pyGet_ok time _ ha haT
    · exact pyGet_ok time _ (by omega) hbT

theorem flareStats_isOk_of_bounds (nm : Numerics) (time flux error model : List ℚ)
    (i0 i1 : ℤ) (cp : ℕ) (hT : time.length = flux.length)
    (ha : 0 ≤ (adjustFlareRange i0 i1 flux.length).1)
    (hb : (adjustFlareRange i0 i1 flux.length).2 < (flux.length : ℤ))
    (hab : (adjustFlareRange i0 i1 flux.length).1 < (adjustFlareRange i0 i1 flux.length).2) :
    isOkE (FlareStats nm time flux error model i0 i1 cp) = true := by
  have h := flareStatsPre_ok nm.polyfit nm.ks2samp time flux error model i0 i1 cp
    hT ha hb hab
  rw [FlareStats]
  rcases hr : FlareStatsPre nm.polyfit nm.ks2samp time flux error model i0 i1 cp
    with e | pre
  · rw [hr] at h
    simp [isOkE] at h
  · rfl

/-- C4: the template fit of FlareStats has exactly three distinguishable
outcomes.  For every behaviour o of the curve_fit collaborator, the output
tuple of FlareStats carries the triple fitSentinel o in its three
template-fit fields: NaN, NaN, NaN (none) when curve_fit raises ValueError
(could not attempt the fit), the sentinel -99, -99, -99 when it raises
RuntimeError (did not converge), and the fitted parameters otherwise; the
two failure modes are distinguishable from each other and from every fitted
triple (NaN is not a number), and whether the event tuple is emitted does
not depend on the fit outcome (the fit-independent part alone decides
success). -/
theorem FlareStats_fit_outcomes (pf : List ℚ → List ℚ → ℕ → List ℚ)
    (ks : List ℚ → List ℚ → ℚ × ℚ) (o : FitOutcome)
    (time flux error model : List ℚ) (i0 i1 : ℤ) (cp : ℕ) :
    (FlareStats ⟨pf, ks, fun _ _ _ => o⟩ time flux error model i0 i1 cp).map fitFields =
        (FlareStatsPre pf ks time flux error model i0 i1 cp).map (fun _ => fitSentinel o) ∧
      isOkE (FlareStats ⟨pf, ks, fun _ _ _ => o⟩ time flux error model i0 i1 cp) =
        isOkE (FlareStatsPre pf ks time flux error model i0 i1 cp) ∧
      fitSentinel FitOutcome.valueErr ≠ fitSentinel FitOutcome.runtimeErr ∧
      ∀ a b c : ℚ, fitSentinel (FitOutcome.fitted a b c) ≠ fitSentinel FitOutcome.valueErr := by
  refine ⟨?_, ?_, by simp [fitSentinel], fun a b c => by simp [fitSentinel]⟩
  · rw [FlareStats]
    rcases hr : FlareStatsPre pf ks time flux error model i0 i1 cp with e | pre
    · rfl
    · show Except.ok (fitFields (buildFlareParams pre o)) = Except.ok (fitSentinel o)
      rcases o with _ | _ | ⟨a, b, c⟩ <;> rfl
  · rw [FlareStats]
    rcases hr : FlareStatsPre pf ks time flux error model i0 i1 cp with e | pre <;> rfl

/-- C6 (amended): FlareStats returns a complete event tuple on every
candidate, including zero-width and single-point ones, whose widened index
range stays inside the arrays; in particular zero-width candidates at
1 <= k <= n-2 and single-point candidates ending before the last sample.
For a zero-width candidate at sample 0 (or one whose widening crosses the
last sample) the widened range leaves the array and FlareStats raises: the
flare-window slice flux[-1:2] is empty and np.max raises ValueError (see
the counterexample). -/
theorem FlareStats_total_in_bounds (nm : Numerics) (time flux error model : List ℚ)
    (i0 i1 : ℤ) (cp : ℕ) (hT : time.length = flux.length)
    (ha : 0 ≤ (adjustFlareRange i0 i1 flux.length).1)
    (hb : (adjustFlareRange i0 i1 flux.length).2 < (flux.length : ℤ))
    (hab : (adjustFlareRange i0 i1 flux.length).1 < (adjustFlareRange i0 i1 flux.length).2) :
    isOkE (FlareStats nm time flux error model i0 i1 cp) = true :=
  flareStats_isOk_of_bounds nm time flux error model i0 i1 cp hT ha hb hab

/-- C6 counterexample: on six equally spaced samples, the zero-width
candidate istart = istop = 0 is widened to the range -1 .. 1; time[-1]
resolves to the last sample, the slice flux[-1:2] is empty, and the np.max
over the empty flare window raises, so FlareStats does not return an event
tuple. -/
theorem C6_zero_width_at_origin_fails :
    FlareStats trivialNumerics fsList6 fsList6 fsList6 fsList6 0 0 2 =
      Except.error () := by
  have hf : pyFancy [(0 : ℚ), 1, 2, 3, 4, 5] [-1, 1] = Except.ok [5, 1] := by rfl
  norm_num [FlareStats, FlareStatsPre, trivialNumerics, adjustFlareRange, pyGet,
    pySlice, npWhereInRange, contSetup, fsList6, nanmedian, sortQ, insertQ,
    polyval, hf, Except.map, List.filter_cons,
    show ((5 : ℤ)).toNat = 5 from rfl, show ((4 : ℤ)).toNat = 4 from rfl,
    show ((3 : ℤ)).toNat = 3 from rfl, show ((2 : ℤ)).toNat = 2 from rfl,
    show ((1 : ℤ)).toNat = 1 from rfl, show ((0 : ℤ)).toNat = 0 from rfl,
    show ((-3 : ℤ)).toNat = 0 from rfl,
    show List.range 6 = [0, 1, 2, 3, 4, 5] from by decide]

/-- C6 witness: the amended totality applied to the degenerate zero-width
candidate istart = istop = 2 on six samples (widened to 1 .. 3), with all
bounds discharged concretely. -/
theorem C6_amended_witness :
    isOkE (FlareStats trivialNumerics fsList6 fsList6 fsList6 fsList6 2 2 2) = true :=
  FlareStats_total_in_bounds trivialNumerics fsList6 fsList6 fsList6 fsList6 2 2 2 rfl
    (by norm_num [adjustFlareRange, fsList6])
    (by norm_num [adjustFlareRange, fsList6])
    (by norm_num [adjustFlareRange, fsList6])

/-- C7: when no sample falls in either flanking continuum window the
continuum anchors become exactly the first and last flare samples and the
polynomial degree drops to 1; when some sample does, the degree stays at the
caller's value (default 2); and under the in-bounds conditions of the
widened range this fallback branch never makes FlareStats fail (the window
hypotheses make the third part the statement of that branch). -/
theorem FlareStats_continuum_fallback :
    (∀ (c1 c2 : List ℕ) (a b : ℤ) (cp : ℕ),
      c1 ++ c2 = [] → contSetup c1 c2 a b cp = ([a, b], 1)) ∧
      (∀ (c1 c2 : List ℕ) (a b : ℤ) (cp : ℕ),
        c1 ++ c2 ≠ [] → (contSetup c1 c2 a b cp).2 = cp) ∧
      ∀ (nm : Numerics) (time flux error model : List ℚ) (i0 i1 : ℤ) (cp : ℕ),
        time.length = flux.length →
        0 ≤ (adjustFlareRange i0 i1 flux.length).1 →
        (adjustFlareRange i0 i1 flux.length).2 < (flux.length : ℤ) →
        (adjustFlareRange i0 i1 flux.length).1 < (adjustFlareRange i0 i1 flux.length).2 →
        npWhereInRange time
            (time.getD (adjustFlareRange i0 i1 flux.length).1.toNat 0 -
              (time.getD (adjustFlareRange i0 i1 flux.length).2.toNat 0 -
                time.getD (adjustFlareRange i0 i1 flux.length).1.toNat 0))
            (time.getD (adjustFlareRange i0 i1 flux.length).1.toNat 0 -
              (time.getD (adjustFlareRange i0 i1 flux.length).2.toNat 0 -
                time.getD (adjustFlareRange i0 i1 flux.length).1.toNat 0) / 2) = [] →
        npWhereInRange time
            (time.getD (adjustFlareRange i0 i1 flux.length).2.toNat 0 +
              (time.getD (adjustFlareRange i0 i1 flux.length).2.toNat 0 -
                time.getD (adjustFlareRange i0 i1 flux.length).1.toNat 0) / 2)
            (time.getD (adjustFlareRange i0 i1 flux.length).2.toNat 0 +
              (time.getD (adjustFlareRange i0 i1 flux.length).2.toNat 0 -
                time.getD (adjustFlareRange i0 i1 flux.length).1.toNat 0)) = [] →
        isOkE (FlareStats nm time flux error model i0 i1 cp) = true := by
  refine ⟨?_, ?_, ?_⟩
  · intro c1 c2 a b cp hc
    rw [contSetup, if_pos hc]
  · intro c1 c2 a b cp hc
    rw [contSetup, if_neg hc]
  · intro nm time flux error model i0 i1 cp hT ha hb hab hw1 hw2
    exact flareStats_isOk_of_bounds nm time flux error model i0 i1 cp hT ha hb hab

/-- C7 witness: the fallback equations at concrete windows, and the
totality of FlareStats in the fallback branch on the gapped time stamps
(candidate 2, widened to 1 .. 3, both flanking windows concretely empty). -/
theorem FlareStats_continuum_fallback_witness :
    contSetup [] [] 1 3 2 = ([1, 3], 1) ∧ (contSetup [0] [] 1 3 2).2 = 2 ∧
      isOkE (FlareStats trivialNumerics fsTimeGap fsTimeGap fsTimeGap fsTimeGap 2 2 2)
        = true :=
  ⟨FlareStats_continuum_fallback.1 [] [] 1 3 2 rfl,
   FlareStats_continuum_fallback.2.1 [0] [] 1 3 2 (by simp),
   FlareStats_continuum_fallback.2.2 trivialNumerics fsTimeGap fsTimeGap fsTimeGap
     fsTimeGap 2 2 2 rfl
     (by norm_num [adjustFlareRange, fsTimeGap])
     (by norm_num [adjustFlareRange, fsTimeGap])
     (by norm_num [adjustFlareRange, fsTimeGap])
     (by norm_num [npWhereInRange, adjustFlareRange, fsTimeGap,
       show ((3 : ℤ)).toNat = 3 from rfl, show ((1 : ℤ)).toNat = 1 from rfl,
       show List.range 6 = [0, 1, 2, 3, 4, 5] from by decide])
     (by norm_num [npWhereInRange, adjustFlareRange, fsTimeGap,
       show ((3 : ℤ)).toNat = 3 from rfl, show ((1 : ℤ)).toNat = 1 from rfl,
       show List.range 6 = [0, 1, 2, 3, 4, 5] from by decide])⟩
